import Mathlib

/-!
Verification of the client-side graph/editing state machine and replay engine
of the SSAP visualizer (`static/js/main.js`).

The JavaScript source keeps the graph in two `vis.DataSet` collections
(`nodes`, `edges`) and drives them from UI event handlers.  We embed that
state shallowly: node ids are `Nat`, an edge stores the DataSet-assigned id,
its `from`/`to` endpoints and its integer weight (the JS code stores the
weight as the string label `String(weight)` and reads it back with
`parseInt`; every write is an integer string, so an `Int` field is the exact
content).  The rendering layer (vis-network) is external to the repository;
its DataSet add/update/remove primitives are modelled with list operations,
and the cascade of `nodes.remove` onto incident edges follows the source's
own comment ("vis.js automatically removes connected edges") and the spec's
Graph Model contract.
-/

set_option autoImplicit false

namespace SSAP

/-- An edge of the graph: DataSet id, `from` endpoint (`from` is a Lean
keyword, hence `from_`), `to` endpoint, and the integer weight stored in the
JS `label` field. -/
structure Edge where
  eid : Nat
  from_ : Nat
  to_ : Nat
  weight : Int
deriving DecidableEq, Repr

/-- JS `edges.get({filter: ...})[0]` with the filter `e.from == a` and
`e.to == b`: the first stored edge with exactly the ordered pair `(a, b)`. -/
def findEdge (es : List Edge) (a b : Nat) : Option Edge :=
  es.find? fun e => e.from_ == a && e.to_ == b

/-- Whether some stored edge has exactly the ordered pair `(a, b)`. -/
def pairExists (es : List Edge) (a b : Nat) : Bool :=
  es.any fun e => e.from_ == a && e.to_ == b

/-- One `connection-item` block of the connection editor for another node:
the node id and the checked state of its two checkboxes
(`data-type="outgoing"`, `data-type="incoming"`). -/
structure OtherItem where
  other : Nat
  outChk : Bool
  inChk : Bool
deriving DecidableEq, Repr

/-- The node editor panel as populated by `populateConnectionsEditor`:
the selected node id (the `selected-node-id` span), the self-loop checkbox,
and one item per other node. -/
structure EditorState where
  sel : Nat
  selfChk : Bool
  items : List OtherItem
deriving DecidableEq, Repr

/-- The client-side application state: the two DataSets (edges carry the
auto-id counter used for fresh DataSet ids), the `startNode`/`endNode`
globals, and the node editor panel (`none` when hidden). -/
structure AppState where
  nodes : List Nat
  edges : List Edge
  nextEdgeId : Nat
  startNode : Option Nat
  endNode : Option Nat
  editor : Option EditorState
deriving DecidableEq, Repr

/-- Ascending insertion of a node id into a sorted id list (used to model
the panel's numeric `.sort((a,b) => parseInt(a.id) - parseInt(b.id))`). -/
def insertAsc (n : Nat) : List Nat → List Nat
  | [] => [n]
  | m :: ms => if n ≤ m then n :: m :: ms else m :: insertAsc n ms

/-- Numeric ascending sort of node ids. -/
def sortIds (l : List Nat) : List Nat :=
  l.foldr insertAsc []

/-- JS `populateConnectionsEditor(selectedNodeId)`: reads the current edge
existence for the self-loop and, for every other node (numerically sorted),
for the outgoing `(sel, other)` and incoming `(other, sel)` pairs. -/
def populateConnectionsEditor (s : AppState) (sel : Nat) : EditorState :=
  { sel := sel
    selfChk := pairExists s.edges sel sel
    items :=
      ((sortIds (s.nodes.filter (fun n => n != sel))).map
        fun o =>
          { other := o
            outChk := pairExists s.edges sel o
            inChk := pairExists s.edges o sel }) }

/-- JS `edges.add({from: a, to: b, label: String(w)})`: appends the edge
under a fresh DataSet id. -/
def addEdge (s : AppState) (a b : Nat) (w : Int) : AppState :=
  { s with
    edges := s.edges ++ [{ eid := s.nextEdgeId, from_ := a, to_ := b, weight := w }]
    nextEdgeId := s.nextEdgeId + 1 }

/-- The uncheck handlers: `edges.get({filter ...})[0]` re-resolved at the
moment of the toggle, then `edges.remove(edgeToRemove.id)` if found. -/
def removeEdgeByPair (s : AppState) (a b : Nat) : AppState :=
  match findEdge s.edges a b with
  | some e => { s with edges := s.edges.filter fun e2 => e2.eid != e.eid }
  | none => s

/-- Sets the `outgoing` checkbox state of the item for node `other`. -/
def setOutChk (items : List OtherItem) (other : Nat) (b : Bool) : List OtherItem :=
  items.map fun it => if it.other == other then { it with outChk := b } else it

/-- Sets the `incoming` checkbox state of the item for node `other`. -/
def setInChk (items : List OtherItem) (other : Nat) (b : Bool) : List OtherItem :=
  items.map fun it => if it.other == other then { it with inChk := b } else it

/-- JS `(nodes.length > 0 ? Math.max(...nodes.getIds()) : 0) + 1`
(in `handleNetworkDoubleClick`). -/
def newNodeId (ids : List Nat) : Nat :=
  (if ids.length > 0 then ids.foldr max 0 else 0) + 1

/-- Modelled from the spec: the Graph Model section says `addNode` "allocates
the smallest unused positive integer id".  This is that allocation rule, for
comparison with the source's `newNodeId`. -/
def smallestUnusedPositive (ids : List Nat) : Nat :=
  ((List.range' 1 (ids.length + 1)).filter fun n => decide (n ∉ ids)).headI

/-- The result the weight modal delivers to its callback (`handleModal`):
`parseInt(weightInput.value)` when OK was clicked, `NaN` otherwise; a
non-numeric input also parses to `NaN`.  `none` is the `NaN` outcome. -/
def modalResult (isOk : Bool) (parsedInput : Option Int) : Option Int :=
  if isOk then parsedInput else none

/-- JS `generateRandomGraph()` (the spec's `generateRandom`): clears both
DataSets and the session state, hides the editor, creates
`Math.max(2, nodeCountInput)` nodes with ids `1..numNodes`, and for every
`i < j` includes the edge `i→j` when the random draw succeeds, with weight
`Math.floor(Math.random()*20)+1`.  The two random draws are modelled by the
oracles `coin` (edge inclusion, `Math.random() > 0.6`) and `wRand` (the
weight draw, reduced mod 20 exactly as `Math.floor(r*20)` lands in
`0..19`).  `randomPairs` is the double loop `for i in 1..numNodes, for j in
i+1..numNodes, if draw then push (i, j)`. -/
def randomPairs (numNodes : Nat) (coin : Nat → Nat → Bool) : List (Nat × Nat) :=
  (List.range' 1 numNodes).flatMap fun i =>
    ((List.range' (i + 1) (numNodes - i)).filter fun j => coin i j).map fun j => (i, j)

def generateRandomGraph (numInput : Nat) (coin : Nat → Nat → Bool)
    (wRand : Nat → Nat → Nat) : AppState :=
  let numNodes := max 2 numInput
  let pairs := randomPairs numNodes coin
  { nodes := List.range' 1 numNodes
    edges := pairs.enum.map fun p =>
      { eid := p.1, from_ := p.2.1, to_ := p.2.2, weight := ((wRand p.2.1 p.2.2) % 20 : Nat) + 1 }
    nextEdgeId := pairs.length
    startNode := none
    endNode := none
    editor := none }

/-- The user-interface events that mutate the graph model or the editor, as
wired in `setupEventListeners` / `populateConnectionsEditor`.  Toggle events
carry the weight-modal outcome (`Option Int`, `none` = cancel / `NaN`). -/
inductive UiOp where
  | clickNode (n : Nat)
  | clickEmpty
  | doubleClickEmpty
  | doubleClickEdge (eid : Nat) (w : Option Int)
  | deleteNodeBtn
  | clearBtn
  | randomBtn (numInput : Nat) (coin : Nat → Nat → Bool) (wRand : Nat → Nat → Nat)
  | setStartBtn
  | setEndBtn
  | toggleSelf (w : Option Int)
  | toggleOut (other : Nat) (w : Option Int)
  | toggleIn (other : Nat) (w : Option Int)

/-- JS `edges.update({id, label: String(newWeight)})` from the edge
double-click weight dialog: replaces the weight of the edge with that id in
place. -/
def updateEdgeLabel (es : List Edge) (eid : Nat) (w : Int) : List Edge :=
  es.map fun e => if e.eid == eid then { e with weight := w } else e

/-- One step of the UI state machine.  Guards record what the browser
guarantees before a handler can fire: a node click carries an existing node
(vis hit-testing), the delete button and the editor checkboxes live inside
the editor panel and are only clickable while it is shown, a checkbox
`change` event is dispatched with the flipped state of the stored checkbox,
and an edge double-click carries an existing edge id. -/
def applyOp (s : AppState) (op : UiOp) : AppState :=
  match op with
  | .clickNode n =>
      if s.nodes.contains n then
        { s with editor := some (populateConnectionsEditor s n) }
      else s
  | .clickEmpty => { s with editor := none }
  | .doubleClickEmpty =>
      { s with nodes := s.nodes ++ [newNodeId s.nodes] }
  | .doubleClickEdge eid w =>
      if s.edges.any (fun e => e.eid == eid) then
        match w with
        | some v => { s with edges := updateEdgeLabel s.edges eid v }
        | none => s
      else s
  | .deleteNodeBtn =>
      match s.editor with
      | none => s
      | some es =>
          { s with
            nodes := s.nodes.filter fun n => n != es.sel
            edges := s.edges.filter fun e => e.from_ != es.sel && e.to_ != es.sel
            startNode := if s.startNode = some es.sel then none else s.startNode
            endNode := if s.endNode = some es.sel then none else s.endNode
            editor := none }
  | .clearBtn =>
      { nodes := [1], edges := [], nextEdgeId := 0
        startNode := none, endNode := none, editor := none }
  | .randomBtn numInput coin wRand => generateRandomGraph numInput coin wRand
  | .setStartBtn =>
      match s.editor with
      | none => s
      | some es => { s with startNode := some es.sel }
  | .setEndBtn =>
      match s.editor with
      | none => s
      | some es => { s with endNode := some es.sel }
  | .toggleSelf w =>
      match s.editor with
      | none => s
      | some es =>
          if es.selfChk then
            { removeEdgeByPair s es.sel es.sel with
              editor := some { es with selfChk := false } }
          else
            match w with
            | some v =>
                { addEdge s es.sel es.sel v with
                  editor := some { es with selfChk := true } }
            | none => { s with editor := some { es with selfChk := false } }
  | .toggleOut other w =>
      match s.editor with
      | none => s
      | some es =>
          match es.items.find? (fun it => it.other == other) with
          | none => s
          | some it =>
              if it.outChk then
                { removeEdgeByPair s es.sel other with
                  editor := some { es with items := setOutChk es.items other false } }
              else
                match w with
                | some v =>
                    { addEdge s es.sel other v with
                      editor := some { es with items := setOutChk es.items other true } }
                | none =>
                    { s with editor := some { es with items := setOutChk es.items other false } }
  | .toggleIn other w =>
      match s.editor with
      | none => s
      | some es =>
          match es.items.find? (fun it => it.other == other) with
          | none => s
          | some it =>
              if it.inChk then
                { removeEdgeByPair s other es.sel with
                  editor := some { es with items := setInChk es.items other false } }
              else
                match w with
                | some v =>
                    { addEdge s other es.sel v with
                      editor := some { es with items := setInChk es.items other true } }
                | none =>
                    { s with editor := some { es with items := setInChk es.items other false } }

/-- A whole interaction session, one event after the other. -/
def applyOps (s : AppState) (ops : List UiOp) : AppState :=
  ops.foldl applyOp s

/-! ## The solver boundary and the replay engine -/

/-- The four algorithm identifiers of the `algo-select` dropdown. -/
inductive Algo where
  | dijkstra
  | a_star
  | bellman_ford
  | bidirectional
deriving DecidableEq, Repr

/-- The identifier string sent to the solver / compared in the JS code. -/
def algoName : Algo → String
  | .dijkstra => "dijkstra"
  | .a_star => "a_star"
  | .bellman_ford => "bellman_ford"
  | .bidirectional => "bidirectional"

/-- JS `['dijkstra', 'a_star', 'bidirectional'].includes(algo)`: the
algorithms whose run is rejected when a negative edge weight exists. -/
def requiresNonNegative (algo : Algo) : Bool :=
  ["dijkstra", "a_star", "bidirectional"].contains (algoName algo)

/-- A JSON value as delivered by `response.json()`.  Strict `JSON.parse`
only ever produces finite numbers (`Infinity`/`NaN` are rejected as invalid
JSON), so numeric values carry an integer: every number this client
produces or displays at one decimal originates from integer edge weights. -/
inductive JsonVal where
  | num (n : Int)
  | str (s : String)
  | null
deriving DecidableEq, Repr

/-- The tags of the solver's Step records. -/
inductive StepType where
  | init
  | visit
  | check_edge
  | update_dist
  | final
  | negative_cycle
deriving DecidableEq, Repr

/-- One Step record of the solver response; absent JSON fields are `none`
(`path` is the empty list when absent: the code only ever asks
`path?.length > 0` and joins a non-empty path, which cannot distinguish the
two). -/
structure Step where
  type : StepType
  message : Option String := none
  node : Option Nat := none
  direction : Option String := none
  from_ : Option Nat := none
  to_ : Option Nat := none
  g_score : Option Int := none
  h_score : Option Int := none
  f_score : Option Int := none
  all_distances : Option (List (Nat × JsonVal)) := none
  path : List Nat := []
  cost : Option JsonVal := none
  nodes_visited : Option Nat := none
deriving DecidableEq, Repr

/-- JS `n.toFixed(1)` for the integer-valued numbers this client handles. -/
def toFixed1 (n : Int) : String :=
  toString n ++ ".0"

/-- The visual attributes of a node that the animation mutates
(`nodes.update` with `font`, `color`, `shadow`).  Colors are tracked as the
CSS variable name passed to `varToHex`, which is an injective environment
lookup. -/
structure NodeVis where
  fontSize : Nat := 18
  color : Option String := none
  shadow : Option (String × Nat) := none
deriving DecidableEq, Repr

/-- The visual attributes of an edge that the animation mutates. -/
structure EdgeVis where
  width : Nat := 2
  color : Option String := none
  shadow : Option (String × Nat) := none
deriving DecidableEq, Repr

/-- `DataSet.update` semantics on a keyed list: update the entry with the
given key, or insert a fresh one (from the default) when absent. -/
def upsertVis {V : Type} (m : List (Nat × V)) (k : Nat) (dflt : V) (f : V → V) :
    List (Nat × V) :=
  if m.any (fun p => p.1 == k) then
    m.map fun p => if p.1 == k then (p.1, f p.2) else p
  else m ++ [(k, f dflt)]

/-- One row of the Live Distance Table: the node id of the `row-...`
element, the value cells after the node-id cell, and whether the row
carries the `highlighted` class. -/
structure TableRow where
  node : Nat
  cells : List String
  highlighted : Bool
deriving DecidableEq, Repr

/-- JS `document.querySelectorAll('tr.highlighted').forEach(r =>
r.classList.remove('highlighted'))`. -/
def clearHighlights (rows : List TableRow) : List TableRow :=
  rows.map fun r => { r with highlighted := false }

/-- JS `document.getElementById('row-' + id)` followed by an update `f`:
only the first row with that id is touched, none when absent. -/
def onRowById (rows : List TableRow) (id : Nat) (f : TableRow → TableRow) :
    List TableRow :=
  match rows with
  | [] => []
  | r :: rs => if r.node == id then f r :: rs else r :: onRowById rs id f

/-- Writes cell index `i` (0 = the first value cell, DOM `cells[1]`). -/
def setCell (i : Nat) (v : String) (r : TableRow) : TableRow :=
  { r with cells := r.cells.set i v }

/-- JS `(typeof val === 'number') ? val.toFixed(1) : val` as written to a
cell's text content. -/
def numDisplay : JsonVal → String
  | .num n => toFixed1 n
  | .str s => s
  | .null => ""

/-- JS `updateAllRows(allDists)`: writes the cost cell of every listed
node's row. -/
def updateAllRows (rows : List TableRow) (ad : List (Nat × JsonVal)) :
    List TableRow :=
  ad.foldl (fun rows p => onRowById rows p.1 (setCell 0 (numDisplay p.2))) rows

/-- JS `step.node || step.from`: the row to highlight. -/
def highlightTarget (step : Step) : Option Nat :=
  step.node <|> step.from_

/-- The highlight phase of `updateTable`: remove the `highlighted` class
everywhere, then add it to the row of `step.node || step.from` when the
step names one and its row exists. -/
def highlightPhase (step : Step) (rows : List TableRow) : List TableRow :=
  let rows := clearHighlights rows
  match highlightTarget step with
  | some id => onRowById rows id fun r => { r with highlighted := true }
  | none => rows

/-- JS `updateTable(step, algo)`: the highlight phase, then cell filling
according to the algorithm-specific branches. -/
def updateTable (step : Step) (algo : Algo) (startNode : Option Nat)
    (rows : List TableRow) : List TableRow :=
  let rows := highlightPhase step rows
  if algo = .a_star ∧ step.type = .update_dist ∧ step.node.isSome then
    match step.node with
    | some n =>
        onRowById rows n fun r =>
          (setCell 0 (toFixed1 (step.g_score.getD 0))
            (setCell 1 (toFixed1 (step.h_score.getD 0))
              (setCell 2 (toFixed1 (step.f_score.getD 0))
                (setCell 3 (match step.from_ with
                  | some f => toString f
                  | none => "undefined") r))))
    | none => rows
  else if (algo = .dijkstra ∨ algo = .bellman_ford) ∧ step.all_distances.isSome then
    updateAllRows rows (step.all_distances.getD [])
  else if step.type = .init ∧ algo ≠ .a_star ∧ step.all_distances.isSome then
    let rows := updateAllRows rows (step.all_distances.getD [])
    match startNode with
    | some sn => onRowById rows sn (setCell 0 "0")
    | none => rows
  else rows

/-- The number of table rows carrying the `highlighted` class. -/
def countHighlighted (rows : List TableRow) : Nat :=
  (rows.filter fun r => r.highlighted).length

/-- The highlight-relevant projection of a table: which row ids exist, in
order, and which of them are highlighted. -/
def hlProfile (rows : List TableRow) : List (Nat × Bool) :=
  rows.map fun r => (r.node, r.highlighted)

/-- The algorithm name as displayed in log and history:
`algo.replace(/_/g, ' ')`, written out per identifier. -/
def algoDisplay : Algo → String
  | .dijkstra => "dijkstra"
  | .a_star => "a star"
  | .bellman_ford => "bellman ford"
  | .bidirectional => "bidirectional"

/-- JS `(typeof cost === 'number' && cost !== Infinity) ? cost.toFixed(1)
: 'N/A'`; a `JSON.parse` number is never `Infinity`, so the second guard is
folded into the numeric case. -/
def costDisplay : Option JsonVal → String
  | some (.num n) => toFixed1 n
  | _ => "N/A"

/-- One row of the Results History comparison table
(`{algorithm, cost, nodesVisited, succeeded}`). -/
structure RunRecord where
  algorithm : String
  cost : String
  nodesVisited : Option Nat
  succeeded : Bool
deriving DecidableEq, Repr

/-- The Run Record appended by `displayFinalResults`:
`succeeded` is `path?.length > 0`. -/
def mkRunRecord (algo : Algo) (step : Step) : RunRecord :=
  { algorithm := algoDisplay algo
    cost := costDisplay step.cost
    nodesVisited := step.nodes_visited
    succeeded := decide (0 < step.path.length) }

/-- The replay-side state the animation mutates: node and edge visuals,
the Live Distance Table, the append-only Results History, the final-results
panel texts, alerts and the log.  The time slept by `await sleep(...)` is
tracked separately, as the second component of an `AnimState × Nat` pair:
sleeping changes no visible state, only that counter. -/
structure AnimState where
  nodeVis : List (Nat × NodeVis)
  edgeVis : List (Nat × EdgeVis)
  table : List TableRow
  history : List RunRecord
  resultPanel : Option (String × String × String)
  alerts : List String
  logs : List String
deriving DecidableEq, Repr

/-- JS glow helper `{enabled: true, size, color: varToHex(colorVar)}`. -/
def glow (colorVar : String) (size : Nat := 20) : Option (String × Nat) :=
  some (colorVar, size)

/-- Direction-agnostic visual edge lookup used by `check_edge` and the
final-path highlighting: matches the stored edge in either orientation. -/
def findVisEdge (es : List Edge) (a b : Nat) : Option Nat :=
  (es.find? fun e => (e.from_ == a && e.to_ == b) || (e.to_ == a && e.from_ == b)).map
    (fun e => e.eid)

/-- Consecutive pairs of a path (`path[i], path[i+1]`). -/
def pathPairs : List Nat → List (Nat × Nat)
  | a :: b :: rest => (a, b) :: pathPairs (b :: rest)
  | _ => []

/-- One iteration of the final-path highlighting loop: direction-agnostic
lookup of the connecting edge, then color/width/shadow update when found. -/
def highlightPathEdge (E : List Edge) (st : AnimState) (p : Nat × Nat) : AnimState :=
  match findVisEdge E p.1 p.2 with
  | some eid =>
      { st with
        edgeVis := upsertVis st.edgeVis eid {} fun v =>
          { v with color := some "--path-color", width := 6,
                   shadow := glow "--path-color" } }
  | none => st

/-- JS `displayFinalResults(result, algo)`: fills the results panel,
projects `all_distances` into the table when present (through a synthetic
`{type: 'final', all_distances}` step), and appends one comparison-table
row. -/
def displayFinalResults (step : Step) (algo : Algo) (startNode : Option Nat)
    (st : AnimState) : AnimState :=
  let pathStr :=
    if 0 < step.path.length then
      String.intercalate " → " (step.path.map toString)
    else "Not Found"
  let costStr := costDisplay step.cost
  let nvStr := match step.nodes_visited with
    | some n => toString n
    | none => "undefined"
  let st := { st with resultPanel := some (pathStr, costStr, nvStr) }
  let st :=
    match step.all_distances with
    | some ad =>
        { st with
          table := updateTable { type := .final, all_distances := some ad } algo
            startNode st.table }
    | none => st
  { st with history := st.history ++ [mkRunRecord algo step] }

/-- The body of the `for (const step of steps)` loop in `animateSteps`,
over `(visible state, total slept ms)`: every `await sleep(...)` adds the
slept duration to the second component at exactly the point where the code
suspends, and touches nothing else. -/
def animateStep (E : List Edge) (startNode : Option Nat) (algo : Algo)
    (speed : Nat) (p : AnimState × Nat) (step : Step) : AnimState × Nat :=
  let st := p.1
  let t := p.2
  let st := { st with logs := st.logs ++ [step.message.getD ""] }
  let st :=
    match step.node with
    | some n =>
        { st with nodeVis := upsertVis st.nodeVis n {} fun v => { v with fontSize := 30 } }
    | none => st
  let q : AnimState × Nat :=
    match step.type with
    | .visit =>
        match step.node with
        | some n =>
            let colorVar :=
              if step.direction = some "bwd" then "--path-color" else "--visited-color"
            ({ st with
                nodeVis := upsertVis st.nodeVis n {} fun v =>
                  { v with shadow := glow colorVar, color := some colorVar } }, t)
        | none => (st, t)
    | .check_edge =>
        match step.from_, step.to_ with
        | some a, some b =>
            match findVisEdge E a b with
            | some eid =>
                let st := { st with
                  edgeVis := upsertVis st.edgeVis eid {} fun v =>
                    { v with width := 5, shadow := glow "--accent-hover" 10 } }
                let t := t + speed / 2
                ({ st with
                    edgeVis := upsertVis st.edgeVis eid {} fun v =>
                      { v with width := 2, shadow := none } }, t)
            | none => (st, t)
        | _, _ => (st, t)
    | .update_dist =>
        match step.node with
        | some n =>
            ({ st with
                nodeVis := upsertVis st.nodeVis n {} fun v =>
                  { v with shadow := glow "--frontier-color" } }, t)
        | none => (st, t)
    | .final =>
        let st :=
          if 0 < step.path.length then
            (pathPairs step.path).foldl (highlightPathEdge E) st
          else st
        (displayFinalResults step algo startNode st, t)
    | .negative_cycle =>
        ({ st with alerts := st.alerts ++ [step.message.getD ""] }, t)
    | .init => (st, t)
  let st := q.1
  let t := q.2
  let st := { st with table := updateTable step algo startNode st.table }
  match step.node with
  | some n =>
      let t := t + speed
      ({ st with nodeVis := upsertVis st.nodeVis n {} fun v => { v with fontSize := 16 } }, t)
  | none => (st, t + speed / 3)

/-- JS `animateSteps(steps, algo)`: the steps consumed strictly in order. -/
def animateSteps (E : List Edge) (startNode : Option Nat) (algo : Algo)
    (speed : Nat) (p : AnimState × Nat) (steps : List Step) : AnimState × Nat :=
  steps.foldl (animateStep E startNode algo speed) p

/-- JS `getSpeed()`: `1100 - speedSlider.value`. -/
def getSpeed (sliderValue : Nat) : Nat :=
  1100 - sliderValue

/-- JS `setupIterativeTable(algo)`: header-dependent empty rows, one per
node id in ascending order, every value cell `'-'`. -/
def setupIterativeTable (algo : Algo) (nodeIds : List Nat) : List TableRow :=
  (sortIds nodeIds).map fun id =>
    { node := id
      cells := List.replicate (if algo = .a_star then 4 else 2) "-"
      highlighted := false }

/-- JS `resetVisuals()`: every node back to the accent color except the
current start/end nodes (end checked last, so it wins when a node is both),
every edge back to width 2 without color or shadow; the live table body and
header are emptied. -/
def resetVisuals (s : AppState) (st : AnimState) : AnimState :=
  { st with
    nodeVis := s.nodes.map fun id =>
      (id,
        { fontSize := 18
          color := some
            (if s.endNode = some id then "--end-node-color"
             else if s.startNode = some id then "--start-node-color"
             else "--accent-color")
          shadow :=
            if s.endNode = some id then glow "--end-node-color"
            else if s.startNode = some id then glow "--start-node-color"
            else none })
    edgeVis := s.edges.map fun e => (e.eid, {})
    table := [] }

/-- The error taxonomy of a run attempt. -/
inductive RunError where
  | MissingEndpoints
  | UnsupportedNegativeWeight
  | SolverError (msg : String)
deriving DecidableEq, Repr

/-- The observable outcome of one `runAlgorithm()` call: whether the
`fetch('/api/solve')` request was issued, the surfaced error if any, the
enabled state of the editing controls after the attempt finished, and the
replay state after the animation (when one ran). -/
structure RunOutcome where
  requestSent : Bool
  error : Option RunError
  controlsEnabledAtEnd : Bool
  anim : Option (AnimState × Nat)
deriving DecidableEq, Repr

/-- JS `runAlgorithm()`.  `ctl` is the enabled state of the editing
controls when the handler fires; `response` stands for the solver boundary
(`Except.error` covering both a non-ok response and a transport failure,
which the code handles identically in the same `catch`).  The two
validation branches `return` before `setControlsEnabled(false)`, so they
leave the controls as they were; the request path disables them and
re-enables them in the `finally`. -/
def runAlgorithm (s : AppState) (algo : Algo) (ctl : Bool)
    (response : Except String (List Step)) (speed : Nat) (st : AnimState) :
    RunOutcome :=
  if s.startNode.isNone || s.endNode.isNone then
    { requestSent := false, error := some .MissingEndpoints
      controlsEnabledAtEnd := ctl, anim := none }
  else if requiresNonNegative algo && s.edges.any (fun e => decide (e.weight < 0)) then
    { requestSent := false, error := some .UnsupportedNegativeWeight
      controlsEnabledAtEnd := ctl, anim := none }
  else
    let st := resetVisuals s st
    let st := { st with table := setupIterativeTable algo s.nodes }
    match response with
    | .error msg =>
        { requestSent := true, error := some (.SolverError msg)
          controlsEnabledAtEnd := true, anim := none }
    | .ok steps =>
        { requestSent := true, error := none
          controlsEnabledAtEnd := true
          anim := some (animateSteps s.edges s.startNode algo speed (st, 0) steps) }

/-! ## Graph Model invariants -/

/-- Every edge's `from`/`to` endpoint references an existing node. -/
def EndpointsOk (s : AppState) : Prop :=
  ∀ e ∈ s.edges, e.from_ ∈ s.nodes ∧ e.to_ ∈ s.nodes

/-- No two stored edges share the same ordered `(from, to)` pair. -/
def NoDupPairs (es : List Edge) : Prop :=
  es.Pairwise fun e₁ e₂ => ¬(e₁.from_ = e₂.from_ ∧ e₁.to_ = e₂.to_)

/-- DataSet id discipline: ids are below the fresh-id counter and pairwise
distinct. -/
def IdsOk (s : AppState) : Prop :=
  (∀ e ∈ s.edges, e.eid < s.nextEdgeId) ∧
    s.edges.Pairwise fun e₁ e₂ => e₁.eid ≠ e₂.eid

/-- The open editor panel is consistent with the graph: the selected node
and every listed node exist, no item lists the selected node itself, and
every checkbox shows exactly the current existence of its edge pair. -/
def EditorSync (s : AppState) : Prop :=
  ∀ es, s.editor = some es →
    es.sel ∈ s.nodes ∧
    es.selfChk = pairExists s.edges es.sel es.sel ∧
    ∀ it ∈ es.items,
      it.other ∈ s.nodes ∧ it.other ≠ es.sel ∧
      it.outChk = pairExists s.edges es.sel it.other ∧
      it.inChk = pairExists s.edges it.other es.sel

/-- The full machine invariant. -/
def Inv (s : AppState) : Prop :=
  EndpointsOk s ∧ NoDupPairs s.edges ∧ IdsOk s ∧ EditorSync s

theorem pairExists_iff {es : List Edge} {a b : Nat} :
    pairExists es a b = true ↔ ∃ e ∈ es, e.from_ = a ∧ e.to_ = b := by
  simp [pairExists]

theorem pairExists_eq_false {es : List Edge} {a b : Nat} :
    pairExists es a b = false ↔ ∀ e ∈ es, ¬(e.from_ = a ∧ e.to_ = b) := by
  rw [← Bool.not_eq_true, pairExists_iff]
  push_neg
  simp

theorem pairExists_append (es : List Edge) (e : Edge) (a b : Nat) :
    pairExists (es ++ [e]) a b =
      (pairExists es a b || (e.from_ == a && e.to_ == b)) := by
  simp [pairExists]

theorem pairExists_updateEdgeLabel (es : List Edge) (eid : Nat) (w : Int)
    (a b : Nat) :
    pairExists (updateEdgeLabel es eid w) a b = pairExists es a b := by
  induction es with
  | nil => rfl
  | cons e es ih =>
      simp only [updateEdgeLabel, List.map_cons, pairExists, List.any_cons] at *
      rw [← ih]
      by_cases h : e.eid == eid <;> simp [h]

/-- Two distinct elements of a list with pairwise-distinct ids have
distinct ids. -/
theorem eid_ne_of_ne {es : List Edge}
    (hids : es.Pairwise fun e₁ e₂ => e₁.eid ≠ e₂.eid)
    {e₁ e₂ : Edge} (h₁ : e₁ ∈ es) (h₂ : e₂ ∈ es) (hne : e₁ ≠ e₂) :
    e₁.eid ≠ e₂.eid :=
  hids.forall (fun _ _ h => (Ne.symm h)) h₁ h₂ hne

/-- Two distinct elements of a list without duplicate pairs have distinct
ordered pairs. -/
theorem pair_ne_of_ne {es : List Edge} (hnd : NoDupPairs es)
    {e₁ e₂ : Edge} (h₁ : e₁ ∈ es) (h₂ : e₂ ∈ es) (hne : e₁ ≠ e₂) :
    ¬(e₁.from_ = e₂.from_ ∧ e₁.to_ = e₂.to_) := by
  have hsym :
      Symmetric (fun e₁ e₂ : Edge => ¬(e₁.from_ = e₂.from_ ∧ e₁.to_ = e₂.to_)) := by
    intro x y h hp
    exact h ⟨hp.1.symm, hp.2.symm⟩
  exact hnd.forall hsym h₁ h₂ hne

theorem removeEdgeByPair_nodes (s : AppState) (a b : Nat) :
    (removeEdgeByPair s a b).nodes = s.nodes := by
  unfold removeEdgeByPair
  cases findEdge s.edges a b <;> rfl

theorem removeEdgeByPair_editor (s : AppState) (a b : Nat) :
    (removeEdgeByPair s a b).editor = s.editor := by
  unfold removeEdgeByPair
  cases findEdge s.edges a b <;> rfl

theorem removeEdgeByPair_nextEdgeId (s : AppState) (a b : Nat) :
    (removeEdgeByPair s a b).nextEdgeId = s.nextEdgeId := by
  unfold removeEdgeByPair
  cases findEdge s.edges a b <;> rfl

theorem removeEdgeByPair_sublist (s : AppState) (a b : Nat) :
    (removeEdgeByPair s a b).edges.Sublist s.edges := by
  unfold removeEdgeByPair
  cases findEdge s.edges a b with
  | none => exact List.Sublist.refl _
  | some e => exact List.filter_sublist _

/-- What an uncheck does to pair existence: exactly the toggled ordered
pair disappears (when present), every other pair is untouched.  Needs the
no-duplicate-pair and distinct-id invariants. -/
theorem pairExists_removeEdgeByPair (s : AppState) (a b x y : Nat)
    (hnd : NoDupPairs s.edges)
    (hids : s.edges.Pairwise fun e₁ e₂ => e₁.eid ≠ e₂.eid) :
    pairExists (removeEdgeByPair s a b).edges x y =
      (pairExists s.edges x y && !(a == x && b == y)) := by
  unfold removeEdgeByPair
  cases hfind : findEdge s.edges a b with
  | none =>
      have habs : pairExists s.edges a b = false := by
        rw [pairExists_eq_false]
        intro e he hp
        have := List.find?_eq_none.mp hfind e he
        simp [hp.1, hp.2] at this
      by_cases hx : a = x
      · by_cases hy : b = y
        · subst hx; subst hy; simp [habs]
        · simp [hy]
      · simp [hx]
  | some E =>
      have hEmem : E ∈ s.edges := List.mem_of_find?_eq_some hfind
      have hEpair : E.from_ = a ∧ E.to_ = b := by
        have := List.find?_some hfind
        simpa using this
      by_cases hxy : a = x ∧ b = y
      · obtain ⟨hx, hy⟩ := hxy
        subst hx; subst hy
        have hrhs : (pairExists s.edges a b && !(a == a && b == b)) = false := by
          simp
        rw [hrhs, pairExists_eq_false]
        intro e hmem hp
        have hmem' : e ∈ s.edges := (List.mem_filter.mp hmem).1
        have hne : e.eid ≠ E.eid := by
          have := (List.mem_filter.mp hmem).2
          simpa using this
        have henene : e ≠ E := fun h => hne (h ▸ rfl)
        exact pair_ne_of_ne hnd hmem' hEmem henene
          ⟨hp.1.trans hEpair.1.symm, hp.2.trans hEpair.2.symm⟩
      · have hbeq : (a == x && b == y) = false := by
          cases not_and_or.mp hxy with
          | inl h => simp [h]
          | inr h => simp [h]
        rw [hbeq]
        simp only [Bool.not_false, Bool.and_true]
        apply Bool.coe_iff_coe.mp
        rw [pairExists_iff, pairExists_iff]
        constructor
        · rintro ⟨e, hmem, hp⟩
          exact ⟨e, (List.mem_filter.mp hmem).1, hp⟩
        · rintro ⟨e, hmem, hp⟩
          refine ⟨e, List.mem_filter.mpr ⟨hmem, ?_⟩, hp⟩
          have heneE : e ≠ E := by
            intro h
            subst h
            exact hxy ⟨hEpair.1 ▸ hp.1.symm ▸ rfl, hEpair.2 ▸ hp.2.symm ▸ rfl⟩
          have := eid_ne_of_ne hids hmem hEmem heneE
          simpa using this

theorem mem_randomPairs {numNodes : Nat} {coin : Nat → Nat → Bool}
    {p : Nat × Nat} (h : p ∈ randomPairs numNodes coin) :
    1 ≤ p.1 ∧ p.1 < p.2 ∧ p.2 ≤ numNodes := by
  simp only [randomPairs, List.mem_flatMap, List.mem_map, List.mem_filter,
    List.mem_range'_1] at h
  obtain ⟨i, hi, j, ⟨hj, _⟩, rfl⟩ := h
  omega

theorem nodup_randomPairs (numNodes : Nat) (coin : Nat → Nat → Bool) :
    (randomPairs numNodes coin).Nodup := by
  rw [randomPairs, List.nodup_flatMap]
  constructor
  · intro i _
    apply List.Nodup.map
    · intro a b hab
      simpa using hab
    · exact List.Nodup.filter _ (List.nodup_range' _ _)
  · have hr : (List.range' 1 numNodes).Nodup := List.nodup_range' _ _
    apply hr.imp
    intro i i' hne
    simp only [Function.onFun]
    rw [List.disjoint_left]
    rintro p hp hp'
    simp only [List.mem_map, List.mem_filter] at hp hp'
    obtain ⟨j, _, rfl⟩ := hp
    obtain ⟨j', _, h'⟩ := hp'
    exact hne (congrArg Prod.fst h'.symm)

theorem edges_generateRandomGraph (numInput : Nat) (coin : Nat → Nat → Bool)
    (wRand : Nat → Nat → Nat) :
    (generateRandomGraph numInput coin wRand).edges =
      (randomPairs (max 2 numInput) coin).enum.map fun p =>
        { eid := p.1, from_ := p.2.1, to_ := p.2.2
          weight := ((wRand p.2.1 p.2.2) % 20 : Nat) + 1 } := rfl

theorem mem_snd_enum {α : Type} {l : List α} {p : Nat × α} (hp : p ∈ l.enum) :
    p.2 ∈ l := by
  have := congrArg (fun l2 => p.2 ∈ l2) (List.enum_map_snd l)
  simp only [eq_iff_iff, List.mem_map] at this
  exact this.mp ⟨p, hp, rfl⟩

theorem inv_generateRandomGraph (numInput : Nat) (coin : Nat → Nat → Bool)
    (wRand : Nat → Nat → Nat) :
    Inv (generateRandomGraph numInput coin wRand) := by
  have hpairs := nodup_randomPairs (max 2 numInput) coin
  refine ⟨?_, ?_, ⟨?_, ?_⟩, ?_⟩
  · intro e he
    rw [edges_generateRandomGraph] at he
    simp only [List.mem_map] at he
    obtain ⟨p, hp, rfl⟩ := he
    have hb := mem_randomPairs (mem_snd_enum hp)
    refine ⟨?_, ?_⟩
    · show p.2.1 ∈ List.range' 1 (max 2 numInput)
      rw [List.mem_range'_1]
      omega
    · show p.2.2 ∈ List.range' 1 (max 2 numInput)
      rw [List.mem_range'_1]
      omega
  · rw [edges_generateRandomGraph]
    unfold NoDupPairs
    rw [List.pairwise_map]
    have h1 : ((randomPairs (max 2 numInput) coin).enum.map Prod.snd).Pairwise
        (· ≠ ·) := by
      rw [List.enum_map_snd]
      exact hpairs
    have h2 := List.pairwise_map.mp h1
    apply h2.imp
    intro a b hne hp
    exact hne (Prod.ext hp.1 hp.2)
  · intro e he
    rw [edges_generateRandomGraph] at he
    simp only [List.mem_map] at he
    obtain ⟨p, hp, rfl⟩ := he
    exact List.fst_lt_of_mem_enum hp
  · rw [edges_generateRandomGraph]
    rw [List.pairwise_map]
    have h1 : ((randomPairs (max 2 numInput) coin).enum.map Prod.fst).Pairwise
        (· ≠ ·) := by
      rw [List.enum_map_fst]
      exact List.nodup_range _
    have h2 := List.pairwise_map.mp h1
    exact h2.imp fun hne => hne
  · intro es hes
    simp only [generateRandomGraph] at hes
    exact absurd hes (by simp)

theorem mem_insertAsc {n m : Nat} {l : List Nat} :
    m ∈ insertAsc n l ↔ m = n ∨ m ∈ l := by
  induction l with
  | nil => simp [insertAsc]
  | cons a as ih =>
      by_cases h : n ≤ a
      · simp [insertAsc, h]
      · simp only [insertAsc, if_neg h, List.mem_cons, ih]
        tauto

theorem mem_sortIds {m : Nat} {l : List Nat} : m ∈ sortIds l ↔ m ∈ l := by
  induction l with
  | nil => simp [sortIds]
  | cons a as ih =>
      show m ∈ insertAsc a (sortIds as) ↔ _
      rw [mem_insertAsc]
      simp [ih]

theorem endpointsOk_addEdge {s : AppState} {a b : Nat} {w : Int}
    (h : EndpointsOk s) (ha : a ∈ s.nodes) (hb : b ∈ s.nodes) :
    EndpointsOk (addEdge s a b w) := by
  intro e he
  simp only [addEdge, List.mem_append, List.mem_singleton] at he
  rcases he with he | rfl
  · exact h e he
  · exact ⟨ha, hb⟩

theorem noDup_addEdge {s : AppState} {a b : Nat} {w : Int}
    (h : NoDupPairs s.edges) (hp : pairExists s.edges a b = false) :
    NoDupPairs (addEdge s a b w).edges := by
  show NoDupPairs (s.edges ++ [_])
  unfold NoDupPairs
  rw [List.pairwise_append]
  refine ⟨h, List.pairwise_singleton _ _, ?_⟩
  intro e he e' he'
  rw [List.mem_singleton] at he'
  subst he'
  exact pairExists_eq_false.mp hp e he

theorem idsOk_addEdge {s : AppState} {a b : Nat} {w : Int}
    (h : IdsOk s) : IdsOk (addEdge s a b w) := by
  obtain ⟨hlt, hids⟩ := h
  constructor
  · intro e he
    simp only [addEdge, List.mem_append, List.mem_singleton] at he
    rcases he with he | rfl
    · exact Nat.lt_succ_of_lt (hlt e he)
    · exact Nat.lt_succ_self _
  · show List.Pairwise _ (s.edges ++ [_])
    rw [List.pairwise_append]
    refine ⟨hids, List.pairwise_singleton _ _, ?_⟩
    intro e he e' he'
    rw [List.mem_singleton] at he'
    subst he'
    exact Nat.ne_of_lt (hlt e he)

theorem endpointsOk_removeEdgeByPair {s : AppState} {a b : Nat}
    (h : EndpointsOk s) : EndpointsOk (removeEdgeByPair s a b) := by
  intro e he
  rw [removeEdgeByPair_nodes]
  exact h e ((removeEdgeByPair_sublist s a b).mem he)

theorem noDup_removeEdgeByPair {s : AppState} {a b : Nat}
    (h : NoDupPairs s.edges) : NoDupPairs (removeEdgeByPair s a b).edges :=
  h.sublist (removeEdgeByPair_sublist s a b)

theorem idsOk_removeEdgeByPair {s : AppState} {a b : Nat}
    (h : IdsOk s) : IdsOk (removeEdgeByPair s a b) := by
  obtain ⟨hlt, hids⟩ := h
  constructor
  · intro e he
    rw [removeEdgeByPair_nextEdgeId]
    exact hlt e ((removeEdgeByPair_sublist s a b).mem he)
  · exact hids.sublist (removeEdgeByPair_sublist s a b)

/-- Every single UI event preserves the machine invariant. -/
theorem inv_applyOp (s : AppState) (op : UiOp) (h : Inv s) :
    Inv (applyOp s op) := by
  obtain ⟨hEnd, hNoDup, ⟨hLt, hIds⟩, hSync⟩ := h
  cases op with
  | clickNode n =>
      simp only [applyOp]
      by_cases hc : s.nodes.contains n
      · rw [if_pos hc]
        refine ⟨hEnd, hNoDup, ⟨hLt, hIds⟩, ?_⟩
        intro es hes
        simp only [Option.some.injEq] at hes
        subst hes
        refine ⟨by simpa using hc, rfl, ?_⟩
        intro it hit
        simp only [populateConnectionsEditor, List.mem_map] at hit
        obtain ⟨o, ho, rfl⟩ := hit
        rw [mem_sortIds, List.mem_filter] at ho
        obtain ⟨homem, hone⟩ := ho
        exact ⟨homem, by simpa using hone, rfl, rfl⟩
      · rw [if_neg hc]
        exact ⟨hEnd, hNoDup, ⟨hLt, hIds⟩, hSync⟩
  | clickEmpty =>
      refine ⟨hEnd, hNoDup, ⟨hLt, hIds⟩, ?_⟩
      intro es hes
      simp [applyOp] at hes
  | doubleClickEmpty =>
      refine ⟨?_, hNoDup, ⟨hLt, hIds⟩, ?_⟩
      · intro e he
        obtain ⟨h1, h2⟩ := hEnd e he
        exact ⟨List.mem_append_left _ h1, List.mem_append_left _ h2⟩
      · intro es hes
        obtain ⟨hsel, hself, hitems⟩ := hSync es hes
        refine ⟨List.mem_append_left _ hsel, hself, ?_⟩
        intro it hit
        obtain ⟨h1, h2, h3, h4⟩ := hitems it hit
        exact ⟨List.mem_append_left _ h1, h2, h3, h4⟩
  | doubleClickEdge eid w =>
      simp only [applyOp]
      by_cases hc : s.edges.any (fun e => e.eid == eid)
      · rw [if_pos hc]
        cases w with
        | none => exact ⟨hEnd, hNoDup, ⟨hLt, hIds⟩, hSync⟩
        | some v =>
            dsimp only
            refine ⟨?_, ?_, ⟨?_, ?_⟩, ?_⟩
            · intro e he
              simp only [updateEdgeLabel, List.mem_map] at he
              obtain ⟨e0, he0, rfl⟩ := he
              obtain ⟨h1, h2⟩ := hEnd e0 he0
              constructor <;> split <;> first | exact h1 | exact h2
            · show NoDupPairs (updateEdgeLabel s.edges eid v)
              unfold NoDupPairs updateEdgeLabel
              rw [List.pairwise_map]
              apply hNoDup.imp
              intro a b hab
              split <;> split <;> exact hab
            · intro e he
              simp only [updateEdgeLabel, List.mem_map] at he
              obtain ⟨e0, he0, rfl⟩ := he
              have hlt0 := hLt e0 he0
              show _ < s.nextEdgeId
              split <;> exact hlt0
            · show List.Pairwise _ (updateEdgeLabel s.edges eid v)
              unfold updateEdgeLabel
              rw [List.pairwise_map]
              apply hIds.imp
              intro a b hab
              split <;> split <;> exact hab
            · intro es hes
              obtain ⟨hsel, hself, hitems⟩ := hSync es hes
              refine ⟨hsel, ?_, ?_⟩
              · rw [hself]
                exact (pairExists_updateEdgeLabel s.edges eid v _ _).symm
              · intro it hit
                obtain ⟨h1, h2, h3, h4⟩ := hitems it hit
                refine ⟨h1, h2, ?_, ?_⟩
                · rw [h3]
                  exact (pairExists_updateEdgeLabel s.edges eid v _ _).symm
                · rw [h4]
                  exact (pairExists_updateEdgeLabel s.edges eid v _ _).symm
      · rw [if_neg hc]
        exact ⟨hEnd, hNoDup, ⟨hLt, hIds⟩, hSync⟩
  | deleteNodeBtn =>
      simp only [applyOp]
      cases hed : s.editor with
      | none => exact ⟨hEnd, hNoDup, ⟨hLt, hIds⟩, hSync⟩
      | some es =>
          dsimp only
          refine ⟨?_, ?_, ⟨?_, ?_⟩, ?_⟩
          · intro e he
            simp only [List.mem_filter] at he
            obtain ⟨he, hpred⟩ := he
            simp only [Bool.and_eq_true, bne_iff_ne, ne_eq] at hpred
            obtain ⟨h1, h2⟩ := hEnd e he
            constructor
            · simp only [List.mem_filter, bne_iff_ne, ne_eq]
              exact ⟨h1, by simpa using hpred.1⟩
            · simp only [List.mem_filter, bne_iff_ne, ne_eq]
              exact ⟨h2, by simpa using hpred.2⟩
          · exact hNoDup.sublist (List.filter_sublist _)
          · intro e he
            exact hLt e ((List.filter_sublist _).mem he)
          · exact hIds.sublist (List.filter_sublist _)
          · intro es' hes'
            simp at hes'
  | clearBtn =>
      refine ⟨?_, ?_, ⟨?_, ?_⟩, ?_⟩
      · intro e he
        simp [applyOp] at he
      · exact List.Pairwise.nil
      · intro e he
        simp [applyOp] at he
      · exact List.Pairwise.nil
      · intro es hes
        simp [applyOp] at hes
  | randomBtn numInput coin wRand => exact inv_generateRandomGraph numInput coin wRand
  | setStartBtn =>
      simp only [applyOp]
      cases hed : s.editor with
      | none => exact ⟨hEnd, hNoDup, ⟨hLt, hIds⟩, hSync⟩
      | some es =>
          dsimp only
          refine ⟨hEnd, hNoDup, ⟨hLt, hIds⟩, ?_⟩
          intro es' hes'
          simp only [Option.some.injEq] at hes'
          subst hes'
          exact hSync es hed
  | setEndBtn =>
      simp only [applyOp]
      cases hed : s.editor with
      | none => exact ⟨hEnd, hNoDup, ⟨hLt, hIds⟩, hSync⟩
      | some es =>
          dsimp only
          refine ⟨hEnd, hNoDup, ⟨hLt, hIds⟩, ?_⟩
          intro es' hes'
          simp only [Option.some.injEq] at hes'
          subst hes'
          exact hSync es hed
  | toggleSelf w =>
      simp only [applyOp]
      cases hed : s.editor with
      | none => exact ⟨hEnd, hNoDup, ⟨hLt, hIds⟩, hSync⟩
      | some es =>
          dsimp only
          obtain ⟨hsel, hself, hitems⟩ := hSync es hed
          by_cases hchk : es.selfChk = true
          · rw [if_pos hchk]
            refine ⟨endpointsOk_removeEdgeByPair hEnd, noDup_removeEdgeByPair hNoDup,
              idsOk_removeEdgeByPair ⟨hLt, hIds⟩, ?_⟩
            intro es' hes'
            simp only [Option.some.injEq] at hes'
            subst hes'
            refine ⟨?_, ?_, ?_⟩
            · show es.sel ∈ (removeEdgeByPair s es.sel es.sel).nodes
              rw [removeEdgeByPair_nodes]
              exact hsel
            · show false = pairExists (removeEdgeByPair s es.sel es.sel).edges es.sel es.sel
              rw [pairExists_removeEdgeByPair s es.sel es.sel es.sel es.sel hNoDup hIds]
              simp
            · intro it hit
              obtain ⟨h1, h2, h3, h4⟩ := hitems it hit
              have hbe : (es.sel == it.other) = false := by
                simp only [beq_eq_false_iff_ne, ne_eq]
                exact fun hh => h2 hh.symm
              refine ⟨?_, h2, ?_, ?_⟩
              · show it.other ∈ (removeEdgeByPair s es.sel es.sel).nodes
                rw [removeEdgeByPair_nodes]
                exact h1
              · show it.outChk =
                  pairExists (removeEdgeByPair s es.sel es.sel).edges es.sel it.other
                rw [pairExists_removeEdgeByPair s es.sel es.sel es.sel it.other hNoDup hIds]
                simp [hbe, h3]
              · show it.inChk =
                  pairExists (removeEdgeByPair s es.sel es.sel).edges it.other es.sel
                rw [pairExists_removeEdgeByPair s es.sel es.sel it.other es.sel hNoDup hIds]
                simp [hbe, h4]
          · rw [if_neg hchk]
            rw [Bool.not_eq_true] at hchk
            have hpfalse : pairExists s.edges es.sel es.sel = false := by
              rw [← hself, hchk]
            cases w with
            | none =>
                dsimp only
                refine ⟨hEnd, hNoDup, ⟨hLt, hIds⟩, ?_⟩
                intro es' hes'
                simp only [Option.some.injEq] at hes'
                subst hes'
                exact ⟨hsel, by rw [← hpfalse], hitems⟩
            | some v =>
                dsimp only
                refine ⟨endpointsOk_addEdge hEnd hsel hsel,
                  noDup_addEdge hNoDup hpfalse, idsOk_addEdge ⟨hLt, hIds⟩, ?_⟩
                intro es' hes'
                simp only [Option.some.injEq] at hes'
                subst hes'
                refine ⟨hsel, ?_, ?_⟩
                · show true = pairExists (s.edges ++ [_]) es.sel es.sel
                  rw [pairExists_append]
                  simp
                · intro it hit
                  obtain ⟨h1, h2, h3, h4⟩ := hitems it hit
                  have hbe : (es.sel == it.other) = false := by
                    simp only [beq_eq_false_iff_ne, ne_eq]
                    exact fun hh => h2 hh.symm
                  refine ⟨h1, h2, ?_, ?_⟩
                  · show it.outChk = pairExists (s.edges ++ [_]) es.sel it.other
                    rw [pairExists_append]
                    simp [hbe, h3]
                  · show it.inChk = pairExists (s.edges ++ [_]) it.other es.sel
                    rw [pairExists_append]
                    simp [hbe, h4]
  | toggleOut other w =>
      simp only [applyOp]
      cases hed : s.editor with
      | none => exact ⟨hEnd, hNoDup, ⟨hLt, hIds⟩, hSync⟩
      | some es =>
          dsimp only
          obtain ⟨hsel, hself, hitems⟩ := hSync es hed
          cases hfind : es.items.find? (fun it => it.other == other) with
          | none => exact ⟨hEnd, hNoDup, ⟨hLt, hIds⟩, hSync⟩
          | some it =>
              dsimp only
              have hitmem : it ∈ es.items := List.mem_of_find?_eq_some hfind
              have hito : it.other = other := by
                have := List.find?_some hfind
                simpa using this
              obtain ⟨hitnodes, hitne, hout, hin⟩ := hitems it hitmem
              have hosel : (es.sel == other) = false := by
                simp only [beq_eq_false_iff_ne, ne_eq]
                exact fun hh => hitne (hito.trans hh.symm)
              have hselo : (other == es.sel) = false := by
                simp only [beq_eq_false_iff_ne, ne_eq]
                exact fun hh => hitne (hito.trans hh)
              by_cases hchk : it.outChk = true
              · rw [if_pos hchk]
                refine ⟨endpointsOk_removeEdgeByPair hEnd, noDup_removeEdgeByPair hNoDup,
                  idsOk_removeEdgeByPair ⟨hLt, hIds⟩, ?_⟩
                intro es' hes'
                simp only [Option.some.injEq] at hes'
                subst hes'
                refine ⟨?_, ?_, ?_⟩
                · show es.sel ∈ (removeEdgeByPair s es.sel other).nodes
                  rw [removeEdgeByPair_nodes]
                  exact hsel
                · show es.selfChk =
                    pairExists (removeEdgeByPair s es.sel other).edges es.sel es.sel
                  rw [pairExists_removeEdgeByPair s es.sel other es.sel es.sel hNoDup hIds]
                  simp [hselo, hself]
                · intro it' hit'
                  simp only [setOutChk, List.mem_map] at hit'
                  obtain ⟨it0, hit0, rfl⟩ := hit'
                  obtain ⟨h1, h2, h3, h4⟩ := hitems it0 hit0
                  have hbe0 : (es.sel == it0.other) = false := by
                    simp only [beq_eq_false_iff_ne, ne_eq]
                    exact fun hh => h2 hh.symm
                  by_cases hsame : (it0.other == other) = true
                  · rw [if_pos hsame]
                    have hoeq : it0.other = other := by simpa using hsame
                    refine ⟨?_, h2, ?_, ?_⟩
                    · show it0.other ∈ (removeEdgeByPair s es.sel other).nodes
                      rw [removeEdgeByPair_nodes]
                      exact h1
                    · show false =
                        pairExists (removeEdgeByPair s es.sel other).edges es.sel it0.other
                      rw [pairExists_removeEdgeByPair s es.sel other es.sel it0.other
                        hNoDup hIds]
                      simp [hoeq]
                    · show it0.inChk =
                        pairExists (removeEdgeByPair s es.sel other).edges it0.other es.sel
                      rw [pairExists_removeEdgeByPair s es.sel other it0.other es.sel
                        hNoDup hIds]
                      simp [hbe0, h4]
                  · rw [if_neg (by simpa using hsame)]
                    have hoeq : (other == it0.other) = false := by
                      simp only [beq_eq_false_iff_ne, ne_eq]
                      intro hh
                      exact hsame (by simp [hh.symm])
                    refine ⟨?_, h2, ?_, ?_⟩
                    · show it0.other ∈ (removeEdgeByPair s es.sel other).nodes
                      rw [removeEdgeByPair_nodes]
                      exact h1
                    · show it0.outChk =
                        pairExists (removeEdgeByPair s es.sel other).edges es.sel it0.other
                      rw [pairExists_removeEdgeByPair s es.sel other es.sel it0.other
                        hNoDup hIds]
                      simp [hoeq, h3]
                    · show it0.inChk =
                        pairExists (removeEdgeByPair s es.sel other).edges it0.other es.sel
                      rw [pairExists_removeEdgeByPair s es.sel other it0.other es.sel
                        hNoDup hIds]
                      simp [hbe0, h4]
              · rw [if_neg hchk]
                rw [Bool.not_eq_true] at hchk
                have hpfalse : pairExists s.edges es.sel other = false := by
                  rw [← hito, ← hout, hchk]
                have hothernodes : other ∈ s.nodes := hito ▸ hitnodes
                cases w with
                | none =>
                    dsimp only
                    refine ⟨hEnd, hNoDup, ⟨hLt, hIds⟩, ?_⟩
                    intro es' hes'
                    simp only [Option.some.injEq] at hes'
                    subst hes'
                    refine ⟨hsel, hself, ?_⟩
                    intro it' hit'
                    simp only [setOutChk, List.mem_map] at hit'
                    obtain ⟨it0, hit0, rfl⟩ := hit'
                    obtain ⟨h1, h2, h3, h4⟩ := hitems it0 hit0
                    by_cases hsame : (it0.other == other) = true
                    · rw [if_pos hsame]
                      have hoeq : it0.other = other := by simpa using hsame
                      refine ⟨h1, h2, ?_, h4⟩
                      show false = pairExists s.edges es.sel it0.other
                      rw [hoeq, hpfalse]
                    · rw [if_neg (by simpa using hsame)]
                      exact ⟨h1, h2, h3, h4⟩
                | some v =>
                    dsimp only
                    refine ⟨endpointsOk_addEdge hEnd hsel hothernodes,
                      noDup_addEdge hNoDup hpfalse, idsOk_addEdge ⟨hLt, hIds⟩, ?_⟩
                    intro es' hes'
                    simp only [Option.some.injEq] at hes'
                    subst hes'
                    refine ⟨hsel, ?_, ?_⟩
                    · show es.selfChk = pairExists (s.edges ++ [_]) es.sel es.sel
                      rw [pairExists_append]
                      simp [hselo, hself]
                    · intro it' hit'
                      simp only [setOutChk, List.mem_map] at hit'
                      obtain ⟨it0, hit0, rfl⟩ := hit'
                      obtain ⟨h1, h2, h3, h4⟩ := hitems it0 hit0
                      have hbe0 : (es.sel == it0.other) = false := by
                        simp only [beq_eq_false_iff_ne, ne_eq]
                        exact fun hh => h2 hh.symm
                      by_cases hsame : (it0.other == other) = true
                      · rw [if_pos hsame]
                        have hoeq : it0.other = other := by simpa using hsame
                        refine ⟨h1, h2, ?_, ?_⟩
                        · show true = pairExists (s.edges ++ [_]) es.sel it0.other
                          rw [pairExists_append]
                          simp [hoeq]
                        · show it0.inChk = pairExists (s.edges ++ [_]) it0.other es.sel
                          rw [pairExists_append]
                          simp [hbe0, h4]
                      · rw [if_neg (by simpa using hsame)]
                        have hoeq : (other == it0.other) = false := by
                          simp only [beq_eq_false_iff_ne, ne_eq]
                          intro hh
                          exact hsame (by simp [hh.symm])
                        refine ⟨h1, h2, ?_, ?_⟩
                        · show it0.outChk = pairExists (s.edges ++ [_]) es.sel it0.other
                          rw [pairExists_append]
                          simp [hoeq, h3]
                        · show it0.inChk = pairExists (s.edges ++ [_]) it0.other es.sel
                          rw [pairExists_append]
                          simp [hbe0, h4]
  | toggleIn other w =>
      simp only [applyOp]
      cases hed : s.editor with
      | none => exact ⟨hEnd, hNoDup, ⟨hLt, hIds⟩, hSync⟩
      | some es =>
          dsimp only
          obtain ⟨hsel, hself, hitems⟩ := hSync es hed
          cases hfind : es.items.find? (fun it => it.other == other) with
          | none => exact ⟨hEnd, hNoDup, ⟨hLt, hIds⟩, hSync⟩
          | some it =>
              dsimp only
              have hitmem : it ∈ es.items := List.mem_of_find?_eq_some hfind
              have hito : it.other = other := by
                have := List.find?_some hfind
                simpa using this
              obtain ⟨hitnodes, hitne, hout, hin⟩ := hitems it hitmem
              have hosel : (other == es.sel) = false := by
                simp only [beq_eq_false_iff_ne, ne_eq]
                exact fun hh => hitne (hito.trans hh)
              by_cases hchk : it.inChk = true
              · rw [if_pos hchk]
                refine ⟨endpointsOk_removeEdgeByPair hEnd, noDup_removeEdgeByPair hNoDup,
                  idsOk_removeEdgeByPair ⟨hLt, hIds⟩, ?_⟩
                intro es' hes'
                simp only [Option.some.injEq] at hes'
                subst hes'
                refine ⟨?_, ?_, ?_⟩
                · show es.sel ∈ (removeEdgeByPair s other es.sel).nodes
                  rw [removeEdgeByPair_nodes]
                  exact hsel
                · show es.selfChk =
                    pairExists (removeEdgeByPair s other es.sel).edges es.sel es.sel
                  rw [pairExists_removeEdgeByPair s other es.sel es.sel es.sel hNoDup hIds]
                  simp [hosel, hself]
                · intro it' hit'
                  simp only [setInChk, List.mem_map] at hit'
                  obtain ⟨it0, hit0, rfl⟩ := hit'
                  obtain ⟨h1, h2, h3, h4⟩ := hitems it0 hit0
                  by_cases hsame : (it0.other == other) = true
                  · rw [if_pos hsame]
                    have hoeq : it0.other = other := by simpa using hsame
                    refine ⟨?_, h2, ?_, ?_⟩
                    · show it0.other ∈ (removeEdgeByPair s other es.sel).nodes
                      rw [removeEdgeByPair_nodes]
                      exact h1
                    · show it0.outChk =
                        pairExists (removeEdgeByPair s other es.sel).edges es.sel it0.other
                      rw [pairExists_removeEdgeByPair s other es.sel es.sel it0.other
                        hNoDup hIds]
                      simp [hosel, h3]
                    · show false =
                        pairExists (removeEdgeByPair s other es.sel).edges it0.other es.sel
                      rw [pairExists_removeEdgeByPair s other es.sel it0.other es.sel
                        hNoDup hIds]
                      simp [hoeq]
                  · rw [if_neg (by simpa using hsame)]
                    have hoeq : (other == it0.other) = false := by
                      simp only [beq_eq_false_iff_ne, ne_eq]
                      intro hh
                      exact hsame (by simp [hh.symm])
                    refine ⟨?_, h2, ?_, ?_⟩
                    · show it0.other ∈ (removeEdgeByPair s other es.sel).nodes
                      rw [removeEdgeByPair_nodes]
                      exact h1
                    · show it0.outChk =
                        pairExists (removeEdgeByPair s other es.sel).edges es.sel it0.other
                      rw [pairExists_removeEdgeByPair s other es.sel es.sel it0.other
                        hNoDup hIds]
                      simp [hosel, h3]
                    · show it0.inChk =
                        pairExists (removeEdgeByPair s other es.sel).edges it0.other es.sel
                      rw [pairExists_removeEdgeByPair s other es.sel it0.other es.sel
                        hNoDup hIds]
                      simp [hoeq, h4]
              · rw [if_neg hchk]
                rw [Bool.not_eq_true] at hchk
                have hpfalse : pairExists s.edges other es.sel = false := by
                  rw [← hito, ← hin, hchk]
                have hothernodes : other ∈ s.nodes := hito ▸ hitnodes
                cases w with
                | none =>
                    dsimp only
                    refine ⟨hEnd, hNoDup, ⟨hLt, hIds⟩, ?_⟩
                    intro es' hes'
                    simp only [Option.some.injEq] at hes'
                    subst hes'
                    refine ⟨hsel, hself, ?_⟩
                    intro it' hit'
                    simp only [setInChk, List.mem_map] at hit'
                    obtain ⟨it0, hit0, rfl⟩ := hit'
                    obtain ⟨h1, h2, h3, h4⟩ := hitems it0 hit0
                    by_cases hsame : (it0.other == other) = true
                    · rw [if_pos hsame]
                      have hoeq : it0.other = other := by simpa using hsame
                      refine ⟨h1, h2, h3, ?_⟩
                      show false = pairExists s.edges it0.other es.sel
                      rw [hoeq, hpfalse]
                    · rw [if_neg (by simpa using hsame)]
                      exact ⟨h1, h2, h3, h4⟩
                | some v =>
                    dsimp only
                    refine ⟨endpointsOk_addEdge hEnd hothernodes hsel,
                      noDup_addEdge hNoDup hpfalse, idsOk_addEdge ⟨hLt, hIds⟩, ?_⟩
                    intro es' hes'
                    simp only [Option.some.injEq] at hes'
                    subst hes'
                    refine ⟨hsel, ?_, ?_⟩
                    · show es.selfChk = pairExists (s.edges ++ [_]) es.sel es.sel
                      rw [pairExists_append]
                      simp [hosel, hself]
                    · intro it' hit'
                      simp only [setInChk, List.mem_map] at hit'
                      obtain ⟨it0, hit0, rfl⟩ := hit'
                      obtain ⟨h1, h2, h3, h4⟩ := hitems it0 hit0
                      by_cases hsame : (it0.other == other) = true
                      · rw [if_pos hsame]
                        have hoeq : it0.other = other := by simpa using hsame
                        refine ⟨h1, h2, ?_, ?_⟩
                        · show it0.outChk = pairExists (s.edges ++ [_]) es.sel it0.other
                          rw [pairExists_append]
                          simp [hosel, h3]
                        · show true = pairExists (s.edges ++ [_]) it0.other es.sel
                          rw [pairExists_append]
                          simp [hoeq]
                      · rw [if_neg (by simpa using hsame)]
                        have hoeq : (other == it0.other) = false := by
                          simp only [beq_eq_false_iff_ne, ne_eq]
                          intro hh
                          exact hsame (by simp [hh.symm])
                        refine ⟨h1, h2, ?_, ?_⟩
                        · show it0.outChk = pairExists (s.edges ++ [_]) es.sel it0.other
                          rw [pairExists_append]
                          simp [hosel, h3]
                        · show it0.inChk = pairExists (s.edges ++ [_]) it0.other es.sel
                          rw [pairExists_append]
                          simp [hoeq, h4]

/-- One step of the replay never lets the speed parameter or the slept-time
counter flow into the visible state: the first component of the result is
the same function of the first component of the input for every speed. -/
theorem animateStep_fst (E : List Edge) (sn : Option Nat) (algo : Algo)
    (sp sp' : Nat) (st : AnimState) (t t' : Nat) (step : Step) :
    (animateStep E sn algo sp (st, t) step).1 =
      (animateStep E sn algo sp' (st, t') step).1 := by
  unfold animateStep
  dsimp only
  rcases hn : step.node with _ | n <;> rcases ht : step.type <;> dsimp only <;> try rfl
  all_goals
    rcases hf : step.from_ with _ | a <;> rcases hg : step.to_ with _ | b <;>
      dsimp only <;> try rfl
  all_goals
    rcases hfe : findVisEdge E a b with _ | eid <;> rfl

/-- Fold extension of `animateStep_fst` over a whole step sequence. -/
theorem animateSteps_fst (E : List Edge) (sn : Option Nat) (algo : Algo)
    (sp sp' : Nat) (steps : List Step) :
    ∀ p q : AnimState × Nat, p.1 = q.1 →
      (animateSteps E sn algo sp p steps).1 =
        (animateSteps E sn algo sp' q steps).1 := by
  induction steps with
  | nil =>
      intro p q h
      exact h
  | cons step steps ih =>
      intro p q h
      apply ih
      obtain ⟨st, t⟩ := p
      obtain ⟨st', t'⟩ := q
      dsimp only at h
      subst h
      exact animateStep_fst E sn algo sp sp' st t t' step

theorem requiresNonNegative_eq (algo : Algo) :
    requiresNonNegative algo = (algo != Algo.bellman_ford) := by
  cases algo <;> rfl

/-- Sequences of UI events preserve the machine invariant. -/
theorem inv_applyOps (s : AppState) (ops : List UiOp) (h : Inv s) :
    Inv (applyOps s ops) := by
  induction ops generalizing s with
  | nil => exact h
  | cons op ops ih => exact ih _ (inv_applyOp s op h)

theorem le_foldr_max {ids : List Nat} {x : Nat} (h : x ∈ ids) :
    x ≤ ids.foldr max 0 := by
  induction ids with
  | nil => cases h
  | cons a as ih =>
      rcases List.mem_cons.mp h with rfl | h2
      · exact le_max_left _ _
      · exact le_trans (ih h2) (le_max_right _ _)

theorem newNodeId_not_mem (ids : List Nat) : newNodeId ids ∉ ids := by
  intro hmem
  have hle := le_foldr_max hmem
  have hnn : 0 < ids.length := List.length_pos.mpr (List.ne_nil_of_mem hmem)
  rw [newNodeId, if_pos hnn] at hle
  omega

/-! ## Claim theorems -/

/-- C1: starting from any generated graph (the state `initializeNetwork`
boots into), every sequence of UI operations — node adds, edge
add/replace via the connection-editor toggles or the weight dialog, node
deletes, edge removals — leaves the Graph Model invariants intact: every
edge endpoint references an existing node and no two edges share the same
ordered `(from, to)` pair. -/
theorem graphModel_invariants_preserved (numInput : Nat) (coin : Nat → Nat → Bool)
    (wRand : Nat → Nat → Nat) (ops : List UiOp) :
    EndpointsOk (applyOps (generateRandomGraph numInput coin wRand) ops) ∧
      NoDupPairs (applyOps (generateRandomGraph numInput coin wRand) ops).edges := by
  have h := inv_applyOps (generateRandomGraph numInput coin wRand) ops
    (inv_generateRandomGraph numInput coin wRand)
  exact ⟨h.1, h.2.1⟩

/-- C2 counterexample: on the graph `{1, 2, 3}` with node 2 deleted, the
smallest unused positive id is 2, but the double-click add allocates 4
(`max + 1`), so "allocates the smallest unused positive integer" is false. -/
theorem addNode_gap_not_smallest :
    (applyOps (generateRandomGraph 3 (fun _ _ => false) (fun _ _ => 0))
        [UiOp.clickNode 2, UiOp.deleteNodeBtn, UiOp.doubleClickEmpty]).nodes =
        [1, 3, 4] ∧
      smallestUnusedPositive [1, 3] = 2 ∧ (4 : Nat) ≠ 2 := by
  refine ⟨by decide, by decide, by decide⟩

/-- C2 (amended): the double-click add allocates one more than the maximum
existing id (1 on an empty graph); it always succeeds, and the allocated id
is never already in use. -/
theorem addNode_max_plus_one (s : AppState) :
    (applyOp s UiOp.doubleClickEmpty).nodes = s.nodes ++ [newNodeId s.nodes] ∧
      newNodeId s.nodes ∉ s.nodes ∧ newNodeId [] = 1 :=
  ⟨rfl, newNodeId_not_mem s.nodes, rfl⟩

/-- C3 counterexample: with the node-count input at 1, the generator clamps
to `Math.max(2, 1)` and creates 2 nodes, not 1. -/
theorem generateRandom_small_count :
    (generateRandomGraph 1 (fun _ _ => true) (fun _ _ => 0)).nodes.length = 2 ∧
      (2 : Nat) ≠ 1 := by
  refine ⟨by decide, by decide⟩

/-- C3 (amended): for every requested count and every random draw,
`generateRandomGraph` clears start/end/selection, creates exactly
`max 2 nodeCount` nodes with sequential ids `1..`, creates only edges
`i→j` with `i < j` inside that range, gives every created edge an integer
weight in `[1, 20]`, and in particular always yields exactly 12 nodes for
the requested count 12. -/
theorem generateRandom_spec (numInput : Nat) (coin : Nat → Nat → Bool)
    (wRand : Nat → Nat → Nat) :
    (generateRandomGraph numInput coin wRand).nodes =
        List.range' 1 (max 2 numInput) ∧
      (generateRandomGraph numInput coin wRand).nodes.length = max 2 numInput ∧
      (generateRandomGraph numInput coin wRand).startNode = none ∧
      (generateRandomGraph numInput coin wRand).endNode = none ∧
      (generateRandomGraph numInput coin wRand).editor = none ∧
      (∀ e ∈ (generateRandomGraph numInput coin wRand).edges,
        1 ≤ e.from_ ∧ e.from_ < e.to_ ∧ e.to_ ≤ max 2 numInput ∧
          1 ≤ e.weight ∧ e.weight ≤ 20) ∧
      (generateRandomGraph 12 coin wRand).nodes.length = 12 := by
  refine ⟨rfl, ?_, rfl, rfl, rfl, ?_, ?_⟩
  · show (List.range' 1 (max 2 numInput)).length = max 2 numInput
    simp [List.length_range']
  · intro e he
    rw [edges_generateRandomGraph] at he
    simp only [List.mem_map] at he
    obtain ⟨p, hp, rfl⟩ := he
    have hb := mem_randomPairs (mem_snd_enum hp)
    refine ⟨hb.1, hb.2.1, hb.2.2, ?_, ?_⟩
    · show (1 : Int) ≤ ((wRand p.2.1 p.2.2 % 20 : Nat) : Int) + 1
      omega
    · show ((wRand p.2.1 p.2.2 % 20 : Nat) : Int) + 1 ≤ 20
      have h19 : wRand p.2.1 p.2.2 % 20 ≤ 19 :=
        Nat.le_of_lt_succ (Nat.mod_lt _ (by norm_num))
      omega
  · show (List.range' 1 (max 2 12)).length = 12
    simp [List.length_range']

/-- C3 witness: the amended theorem applied to the always-include coin and
the constant weight draw 7, at the concrete edge `1→2` of the 2-node graph,
and to the requested count 12. -/
theorem generateRandom_spec_witness :
    (1 ≤ (1 : Nat)) ∧ (1 : Nat) < 2 ∧ (2 : Nat) ≤ max 2 2 ∧
      (1 : Int) ≤ 8 ∧ (8 : Int) ≤ 20 ∧
      (generateRandomGraph 12 (fun _ _ => true) (fun _ _ => 7)).nodes.length = 12 := by
  have h := generateRandom_spec 2 (fun _ _ => true) (fun _ _ => 7)
  have he := h.2.2.2.2.2.1 { eid := 0, from_ := 1, to_ := 2, weight := 8 } (by decide)
  exact ⟨he.1, he.2.1, he.2.2.1, he.2.2.2.1, he.2.2.2.2,
    (generateRandom_spec 12 (fun _ _ => true) (fun _ _ => 7)).2.2.2.2.2.2⟩

/-- C4: `runAlgorithm` rejects a run with `MissingEndpoints` whenever the
start or end node is unset; for every algorithm other than the
negative-weight-tolerant `bellman_ford`, it rejects with
`UnsupportedNegativeWeight` whenever the endpoints are set and some edge
weight is negative; in both cases no solver request is issued. -/
theorem runAlgorithm_validation (s : AppState) (algo : Algo) (ctl : Bool)
    (response : Except String (List Step)) (speed : Nat) (st : AnimState) :
    ((s.startNode = none ∨ s.endNode = none) →
      (runAlgorithm s algo ctl response speed st).error =
          some RunError.MissingEndpoints ∧
        (runAlgorithm s algo ctl response speed st).requestSent = false) ∧
    ((s.startNode ≠ none ∧ s.endNode ≠ none ∧ algo ≠ Algo.bellman_ford ∧
        ∃ e ∈ s.edges, e.weight < 0) →
      (runAlgorithm s algo ctl response speed st).error =
          some RunError.UnsupportedNegativeWeight ∧
        (runAlgorithm s algo ctl response speed st).requestSent = false) := by
  constructor
  · intro h
    have hcond : (s.startNode.isNone || s.endNode.isNone) = true := by
      rcases h with h | h <;> simp [h]
    rw [runAlgorithm, if_pos hcond]
    exact ⟨rfl, rfl⟩
  · rintro ⟨h1, h2, h3, e, he, hw⟩
    have hcond1 : (s.startNode.isNone || s.endNode.isNone) = false := by
      rcases hs : s.startNode with _ | a
      · exact absurd hs h1
      rcases hen : s.endNode with _ | b
      · exact absurd hen h2
      rfl
    have hcond2 :
        (requiresNonNegative algo && s.edges.any fun e => decide (e.weight < 0)) = true := by
      rw [requiresNonNegative_eq]
      simp only [Bool.and_eq_true, bne_iff_ne, ne_eq, List.any_eq_true]
      exact ⟨h3, e, he, by simpa using hw⟩
    rw [runAlgorithm, if_neg (by simp [hcond1]), if_pos hcond2]
    exact ⟨rfl, rfl⟩

/-- C4 witness: a run without endpoints is rejected with
`MissingEndpoints`; a dijkstra run over an edge of weight −3 is rejected
with `UnsupportedNegativeWeight`. -/
theorem runAlgorithm_validation_witness :
    (runAlgorithm
        { nodes := [1], edges := [], nextEdgeId := 0, startNode := none,
          endNode := none, editor := none }
        Algo.dijkstra true (Except.ok []) 500 ⟨[], [], [], [], none, [], []⟩).error =
      some RunError.MissingEndpoints ∧
    (runAlgorithm
        { nodes := [1, 2], edges := [{ eid := 0, from_ := 1, to_ := 2, weight := -3 }],
          nextEdgeId := 1, startNode := some 1, endNode := some 2, editor := none }
        Algo.dijkstra true (Except.ok []) 500 ⟨[], [], [], [], none, [], []⟩).error =
      some RunError.UnsupportedNegativeWeight := by
  constructor
  · exact ((runAlgorithm_validation _ _ _ _ _ _).1 (Or.inl rfl)).1
  · exact ((runAlgorithm_validation _ _ _ _ _ _).2
      ⟨by decide, by decide, by decide,
        ⟨{ eid := 0, from_ := 1, to_ := 2, weight := -3 }, by decide, by decide⟩⟩).1

/-- C5: a run attempt started with the editing controls enabled finishes
with them enabled on every exit path — both validation rejections return
before ever disabling them, and the request path re-enables them in the
`finally` whether the solver answered with steps or an error. -/
theorem runAlgorithm_controls_released (s : AppState) (algo : Algo)
    (response : Except String (List Step)) (speed : Nat) (st : AnimState) :
    (runAlgorithm s algo true response speed st).controlsEnabledAtEnd = true := by
  unfold runAlgorithm
  split
  · rfl
  · split
    · rfl
    · cases response <;> rfl

/-- C6: toggling any connection-editor checkbox off — the self-loop box,
an outgoing box or an incoming box — re-resolves the edge against the
graph at the moment of the toggle: whatever the snapshot checkboxes claim,
the removal is computed from the current `edges` alone; the currently
stored edge with exactly the corresponding ordered pair (`(sel, sel)`,
`(sel, other)` or `(other, sel)` respectively) is removed when one exists,
and nothing is removed when none exists. -/
theorem toggleOff_re_resolves (s : AppState) (es : EditorState)
    (other : Nat) (w wo wi : Option Int)
    (hed : s.editor = some es) :
    (es.selfChk = true →
      (applyOp s (UiOp.toggleSelf w)).edges =
        match findEdge s.edges es.sel es.sel with
        | some e => s.edges.filter fun e2 => e2.eid != e.eid
        | none => s.edges) ∧
    (∀ it, es.items.find? (fun i => i.other == other) = some it →
      it.outChk = true →
      (applyOp s (UiOp.toggleOut other wo)).edges =
        match findEdge s.edges es.sel other with
        | some e => s.edges.filter fun e2 => e2.eid != e.eid
        | none => s.edges) ∧
    (∀ it, es.items.find? (fun i => i.other == other) = some it →
      it.inChk = true →
      (applyOp s (UiOp.toggleIn other wi)).edges =
        match findEdge s.edges other es.sel with
        | some e => s.edges.filter fun e2 => e2.eid != e.eid
        | none => s.edges) := by
  refine ⟨?_, ?_, ?_⟩
  · intro hchk
    simp only [applyOp]
    rw [hed]
    dsimp only
    rw [if_pos hchk]
    show (removeEdgeByPair s es.sel es.sel).edges = _
    unfold removeEdgeByPair
    cases findEdge s.edges es.sel es.sel <;> rfl
  · intro it hfind hchk
    simp only [applyOp]
    rw [hed]
    dsimp only
    rw [hfind]
    dsimp only
    rw [if_pos hchk]
    show (removeEdgeByPair s es.sel other).edges = _
    unfold removeEdgeByPair
    cases findEdge s.edges es.sel other <;> rfl
  · intro it hfind hchk
    simp only [applyOp]
    rw [hed]
    dsimp only
    rw [hfind]
    dsimp only
    rw [if_pos hchk]
    show (removeEdgeByPair s other es.sel).edges = _
    unfold removeEdgeByPair
    cases findEdge s.edges other es.sel <;> rfl

/-- C6 witness: on a stale editor whose self-loop, outgoing and incoming
boxes are all still checked although the graph has no edges left, every
uncheck removes nothing; on a live editor whose outgoing edge `1→2` does
exist, the uncheck removes exactly it. -/
theorem toggleOff_re_resolves_witness :
    (applyOp (⟨[1, 2], [], 0, none, none,
        some ⟨1, true, [⟨2, true, true⟩]⟩⟩ : AppState)
        (UiOp.toggleSelf none)).edges = [] ∧
    (applyOp (⟨[1, 2], [], 0, none, none,
        some ⟨1, true, [⟨2, true, true⟩]⟩⟩ : AppState)
        (UiOp.toggleOut 2 none)).edges = [] ∧
    (applyOp (⟨[1, 2], [], 0, none, none,
        some ⟨1, true, [⟨2, true, true⟩]⟩⟩ : AppState)
        (UiOp.toggleIn 2 none)).edges = [] ∧
    (applyOp (⟨[1, 2], [⟨0, 1, 2, 4⟩], 1, none, none,
        some ⟨1, false, [⟨2, true, false⟩]⟩⟩ : AppState)
        (UiOp.toggleOut 2 none)).edges = [] := by
  have h1 := toggleOff_re_resolves
    ⟨[1, 2], [], 0, none, none, some ⟨1, true, [⟨2, true, true⟩]⟩⟩
    ⟨1, true, [⟨2, true, true⟩]⟩ 2 none none none rfl
  have h2 := toggleOff_re_resolves
    ⟨[1, 2], [⟨0, 1, 2, 4⟩], 1, none, none, some ⟨1, false, [⟨2, true, false⟩]⟩⟩
    ⟨1, false, [⟨2, true, false⟩]⟩ 2 none none none rfl
  exact ⟨h1.1 rfl, h1.2.1 ⟨2, true, true⟩ rfl rfl, h1.2.2 ⟨2, true, true⟩ rfl rfl,
    h2.2.1 ⟨2, true, false⟩ rfl rfl⟩

/-- C7: toggling any connection-editor checkbox on — self-loop, outgoing
or incoming — leaves the graph untouched and reverts the checkbox to
unchecked when the weight prompt is cancelled or parses to `NaN`; on a
valid integer weight it adds exactly one edge with the corresponding
orientation (`sel → sel`, `sel → other`, `other → sel`) and that weight. -/
theorem toggleOn_cancel_no_mutation (s : AppState) (es : EditorState)
    (other : Nat) (inp : Option Int) (v : Int)
    (hed : s.editor = some es) :
    (es.selfChk = false →
      (applyOp s (UiOp.toggleSelf (modalResult false inp))).edges = s.edges ∧
      (applyOp s (UiOp.toggleSelf (modalResult false inp))).editor =
        some { es with selfChk := false } ∧
      (applyOp s (UiOp.toggleSelf (modalResult true none))).edges = s.edges ∧
      (applyOp s (UiOp.toggleSelf (modalResult true (some v)))).edges =
        s.edges ++
          [{ eid := s.nextEdgeId, from_ := es.sel, to_ := es.sel, weight := v }]) ∧
    (∀ it, es.items.find? (fun i => i.other == other) = some it →
      it.outChk = false →
      ((applyOp s (UiOp.toggleOut other (modalResult false inp))).edges = s.edges ∧
        (applyOp s (UiOp.toggleOut other (modalResult false inp))).editor =
          some { es with items := setOutChk es.items other false }) ∧
      ((applyOp s (UiOp.toggleOut other (modalResult true none))).edges = s.edges ∧
        (applyOp s (UiOp.toggleOut other (modalResult true none))).editor =
          some { es with items := setOutChk es.items other false }) ∧
      (applyOp s (UiOp.toggleOut other (modalResult true (some v)))).edges =
        s.edges ++
          [{ eid := s.nextEdgeId, from_ := es.sel, to_ := other, weight := v }]) ∧
    (∀ it, es.items.find? (fun i => i.other == other) = some it →
      it.inChk = false →
      ((applyOp s (UiOp.toggleIn other (modalResult false inp))).edges = s.edges ∧
        (applyOp s (UiOp.toggleIn other (modalResult false inp))).editor =
          some { es with items := setInChk es.items other false }) ∧
      ((applyOp s (UiOp.toggleIn other (modalResult true none))).edges = s.edges ∧
        (applyOp s (UiOp.toggleIn other (modalResult true none))).editor =
          some { es with items := setInChk es.items other false }) ∧
      (applyOp s (UiOp.toggleIn other (modalResult true (some v)))).edges =
        s.edges ++
          [{ eid := s.nextEdgeId, from_ := other, to_ := es.sel, weight := v }]) := by
  refine ⟨?_, ?_, ?_⟩
  · intro hchk
    have hneg : ¬(es.selfChk = true) := by simp [hchk]
    refine ⟨?_, ?_, ?_, ?_⟩ <;>
      · simp only [applyOp]
        rw [hed]
        dsimp only
        rw [if_neg hneg]
        rfl
  · intro it hfind hchk
    have hneg : ¬(it.outChk = true) := by simp [hchk]
    refine ⟨⟨?_, ?_⟩, ⟨?_, ?_⟩, ?_⟩ <;>
      · simp only [applyOp]
        rw [hed]
        dsimp only
        rw [hfind]
        dsimp only
        rw [if_neg hneg]
        rfl
  · intro it hfind hchk
    have hneg : ¬(it.inChk = true) := by simp [hchk]
    refine ⟨⟨?_, ?_⟩, ⟨?_, ?_⟩, ?_⟩ <;>
      · simp only [applyOp]
        rw [hed]
        dsimp only
        rw [hfind]
        dsimp only
        rw [if_neg hneg]
        rfl

/-- C7 witness: on an empty two-node graph with node 1 selected, cancelling
the prompt adds nothing for any of the three boxes (and the outgoing box is
reverted to unchecked), while confirming weight 9 adds exactly the
self-loop `1→1`, the outgoing edge `1→2`, or the incoming edge `2→1`. -/
theorem toggleOn_cancel_no_mutation_witness :
    (applyOp (⟨[1, 2], [], 0, none, none,
        some ⟨1, false, [⟨2, false, false⟩]⟩⟩ : AppState)
        (UiOp.toggleSelf (modalResult false (some 5)))).edges = [] ∧
    (applyOp (⟨[1, 2], [], 0, none, none,
        some ⟨1, false, [⟨2, false, false⟩]⟩⟩ : AppState)
        (UiOp.toggleSelf (modalResult true (some 9)))).edges = [⟨0, 1, 1, 9⟩] ∧
    (applyOp (⟨[1, 2], [], 0, none, none,
        some ⟨1, false, [⟨2, false, false⟩]⟩⟩ : AppState)
        (UiOp.toggleOut 2 (modalResult false (some 5)))).edges = [] ∧
    (applyOp (⟨[1, 2], [], 0, none, none,
        some ⟨1, false, [⟨2, false, false⟩]⟩⟩ : AppState)
        (UiOp.toggleOut 2 (modalResult false (some 5)))).editor =
      some ⟨1, false, [⟨2, false, false⟩]⟩ ∧
    (applyOp (⟨[1, 2], [], 0, none, none,
        some ⟨1, false, [⟨2, false, false⟩]⟩⟩ : AppState)
        (UiOp.toggleOut 2 (modalResult true (some 9)))).edges = [⟨0, 1, 2, 9⟩] ∧
    (applyOp (⟨[1, 2], [], 0, none, none,
        some ⟨1, false, [⟨2, false, false⟩]⟩⟩ : AppState)
        (UiOp.toggleIn 2 (modalResult true (some 9)))).edges = [⟨0, 2, 1, 9⟩] := by
  have h := toggleOn_cancel_no_mutation
    ⟨[1, 2], [], 0, none, none, some ⟨1, false, [⟨2, false, false⟩]⟩⟩
    ⟨1, false, [⟨2, false, false⟩]⟩ 2 (some 5) 9 rfl
  have hs := h.1 rfl
  have ho := h.2.1 ⟨2, false, false⟩ rfl rfl
  have hi := h.2.2 ⟨2, false, false⟩ rfl rfl
  exact ⟨hs.1, hs.2.2.2, ho.1.1, ho.1.2, ho.2.2, hi.2.2⟩

theorem highlightPathEdge_history (E : List Edge) (st : AnimState) (p : Nat × Nat) :
    (highlightPathEdge E st p).history = st.history := by
  unfold highlightPathEdge
  rcases findVisEdge E p.1 p.2 <;> rfl

theorem pathFold_history (E : List Edge) (ps : List (Nat × Nat)) :
    ∀ st : AnimState, (ps.foldl (highlightPathEdge E) st).history = st.history := by
  induction ps with
  | nil => intro st; rfl
  | cons p ps ih =>
      intro st
      rw [List.foldl_cons, ih, highlightPathEdge_history]

theorem displayFinalResults_history (step : Step) (algo : Algo) (sn : Option Nat)
    (st : AnimState) :
    (displayFinalResults step algo sn st).history =
      st.history ++ [mkRunRecord algo step] := by
  unfold displayFinalResults
  rcases step.all_distances <;> rfl

/-- C9: processing a `final` step appends exactly one Run Record — with the
algorithm's display name, the cost rendered to one decimal when it is a
number and `"N/A"` otherwise, the reported visited count, and `succeeded`
exactly when the path is non-empty — to the end of the Results History,
leaving every previously appended record in place. -/
theorem final_step_run_record (E : List Edge) (sn : Option Nat) (algo : Algo)
    (speed : Nat) (st : AnimState) (t : Nat) (step : Step)
    (hfinal : step.type = StepType.final) :
    (animateStep E sn algo speed (st, t) step).1.history =
        st.history ++ [mkRunRecord algo step] ∧
      ((mkRunRecord algo step).succeeded = true ↔ step.path ≠ []) ∧
      (∀ n : Int, step.cost = some (JsonVal.num n) →
        (mkRunRecord algo step).cost = toString n ++ ".0") ∧
      ((∀ n : Int, step.cost ≠ some (JsonVal.num n)) →
        (mkRunRecord algo step).cost = "N/A") ∧
      (mkRunRecord algo step).nodesVisited = step.nodes_visited ∧
      (mkRunRecord algo step).algorithm = algoDisplay algo := by
  refine ⟨?_, ?_, ?_, ?_, rfl, rfl⟩
  · unfold animateStep
    dsimp only
    rw [hfinal]
    rcases hn : step.node with _ | n <;> dsimp only <;>
      · rw [displayFinalResults_history]
        split
        · rw [pathFold_history]
        · rfl
  · simp [mkRunRecord, List.length_pos]
  · intro n hc
    simp [mkRunRecord, costDisplay, hc, toFixed1]
  · intro h
    rcases hc : step.cost with _ | v
    · simp [mkRunRecord, costDisplay, hc]
    · rcases v with n | sx | _
      · exact absurd hc (h n)
      · simp [mkRunRecord, costDisplay, hc]
      · simp [mkRunRecord, costDisplay, hc]

/-- C9 witness: a `final` step with an empty path and no numeric cost
appends `{dijkstra, "N/A", 3, failed}` to an empty history. -/
theorem final_step_run_record_witness :
    (animateStep [] (some 1) Algo.dijkstra 500 (⟨[], [], [], [], none, [], []⟩, 0)
        { type := StepType.final, path := [], cost := none,
          nodes_visited := some 3 }).1.history =
      [{ algorithm := "dijkstra", cost := "N/A", nodesVisited := some 3,
         succeeded := false }] := by
  have h := final_step_run_record [] (some 1) Algo.dijkstra 500
    ⟨[], [], [], [], none, [], []⟩ 0
    { type := StepType.final, path := [], cost := none, nodes_visited := some 3 } rfl
  rw [h.1]
  rfl

theorem count0_iff {rows : List TableRow} :
    countHighlighted rows = 0 ↔ ∀ r ∈ rows, r.highlighted = false := by
  simp [countHighlighted, List.length_eq_zero, List.filter_eq_nil_iff]

theorem clearHighlights_all_false (rows : List TableRow) :
    ∀ r ∈ clearHighlights rows, r.highlighted = false := by
  intro r hr
  simp only [clearHighlights, List.mem_map] at hr
  obtain ⟨r0, _, rfl⟩ := hr
  rfl

theorem any_node_clearHighlights (rows : List TableRow) (id : Nat) :
    ((clearHighlights rows).any fun r => r.node == id) =
      (rows.any fun r => r.node == id) := by
  rw [clearHighlights, List.any_map]
  rfl

theorem onRow_highlight (rows : List TableRow) (id : Nat)
    (h : ∀ r ∈ rows, r.highlighted = false) :
    countHighlighted (onRowById rows id fun r => { r with highlighted := true }) =
        (if rows.any (fun r => r.node == id) then 1 else 0) ∧
      ∀ r ∈ onRowById rows id (fun r => { r with highlighted := true }),
        r.highlighted = true → r.node = id := by
  induction rows with
  | nil => exact ⟨rfl, by intro r hr; cases hr⟩
  | cons r rs ih =>
      have hr0 : r.highlighted = false := h r (List.mem_cons_self _ _)
      have hrs : ∀ r' ∈ rs, r'.highlighted = false :=
        fun r' hm => h r' (List.mem_cons_of_mem _ hm)
      obtain ⟨ihc, ihp⟩ := ih hrs
      simp only [onRowById]
      by_cases hb : (r.node == id) = true
      · rw [if_pos hb]
        constructor
        · have hz : countHighlighted rs = 0 := count0_iff.mpr hrs
          simp only [countHighlighted, List.filter_cons] at hz ⊢
          simp [List.any_cons, hb, hz]
        · intro r' hr' hh
          rcases List.mem_cons.mp hr' with rfl | hmem
          · simpa using hb
          · exact absurd hh (by simp [hrs r' hmem])
      · rw [if_neg hb]
        constructor
        · simp only [countHighlighted, List.filter_cons, hr0, List.any_cons, hb]
          simpa [countHighlighted] using ihc
        · intro r' hr' hh
          rcases List.mem_cons.mp hr' with rfl | hmem
          · exact absurd hh (by simp [hr0])
          · exact ihp r' hmem hh

theorem hlProfile_onRow (rows : List TableRow) (id : Nat) (f : TableRow → TableRow)
    (hf1 : ∀ r, (f r).node = r.node) (hf2 : ∀ r, (f r).highlighted = r.highlighted) :
    hlProfile (onRowById rows id f) = hlProfile rows := by
  induction rows with
  | nil => rfl
  | cons r rs ih =>
      simp only [onRowById]
      split
      · simp [hlProfile, hf1, hf2]
      · simp only [hlProfile, List.map_cons] at ih ⊢
        rw [ih]

theorem hlProfile_updateAllRows (ad : List (Nat × JsonVal)) :
    ∀ rows : List TableRow, hlProfile (updateAllRows rows ad) = hlProfile rows := by
  induction ad with
  | nil => intro rows; rfl
  | cons p ad ih =>
      intro rows
      show hlProfile
        (updateAllRows (onRowById rows p.1 (setCell 0 (numDisplay p.2))) ad) = _
      rw [ih,
        hlProfile_onRow rows p.1 (setCell 0 (numDisplay p.2)) (fun r => rfl)
          (fun r => rfl)]

theorem count_profile (rows : List TableRow) :
    countHighlighted rows = ((hlProfile rows).filter fun p => p.2).length := by
  induction rows with
  | nil => rfl
  | cons r rs ih =>
      simp only [countHighlighted, hlProfile, List.map_cons, List.filter_cons] at ih ⊢
      by_cases hb : r.highlighted = true
      · simp [hb, ih]
      · simp [hb, ih]

theorem countHighlighted_congr_profile {rows rows' : List TableRow}
    (h : hlProfile rows = hlProfile rows') :
    countHighlighted rows = countHighlighted rows' := by
  rw [count_profile, count_profile, h]

theorem highlight_nodes_transfer {rows rows' : List TableRow} {id : Nat}
    (hp : hlProfile rows' = hlProfile rows)
    (h : ∀ r ∈ rows, r.highlighted = true → r.node = id) :
    ∀ r' ∈ rows', r'.highlighted = true → r'.node = id := by
  intro r' hm hh
  have hmem : (r'.node, r'.highlighted) ∈ hlProfile rows' :=
    List.mem_map_of_mem _ hm
  rw [hp] at hmem
  obtain ⟨r, hr, heq⟩ := List.mem_map.mp hmem
  have h1 : r.node = r'.node := congrArg Prod.fst heq
  have h2 : r.highlighted = r'.highlighted := congrArg Prod.snd heq
  rw [← h1]
  exact h r hr (h2.trans hh)

/-- The cell-filling phase of `updateTable` never changes which rows exist
nor which row is highlighted. -/
theorem updateTable_profile (step : Step) (algo : Algo) (sn : Option Nat)
    (rows : List TableRow) :
    hlProfile (updateTable step algo sn rows) =
      hlProfile (highlightPhase step rows) := by
  unfold updateTable
  split_ifs with h1 h2 h3
  · rcases hn : step.node with _ | n
    · rfl
    · dsimp only
      exact hlProfile_onRow _ n _ (fun r => rfl) (fun r => rfl)
  · exact hlProfile_updateAllRows _ _
  · rcases hsn : sn with _ | snid
    · dsimp only
      exact hlProfile_updateAllRows _ _
    · dsimp only
      rw [hlProfile_onRow _ snid (setCell 0 "0") (fun r => rfl) (fun r => rfl)]
      exact hlProfile_updateAllRows _ _
  · rfl

/-- C10 counterexample: processing a `final` step — which names no `node`
and no `from` — clears every highlight and applies none, leaving zero rows
highlighted, not exactly one. -/
theorem updateTable_final_no_highlight :
    countHighlighted (updateTable
        { type := StepType.final, path := [1, 2], cost := some (JsonVal.num 7),
          nodes_visited := some 2 }
        Algo.dijkstra (some 1)
        [{ node := 1, cells := ["0.0", "-"], highlighted := true },
         { node := 2, cells := ["-", "-"], highlighted := false }]) = 0 ∧
      (0 : Nat) ≠ 1 := by
  refine ⟨by decide, by decide⟩

/-- C10 (amended): after `updateTable` processes a step, at most one row is
highlighted; previous highlights are always cleared first; when the step
names a node (`step.node`, or `step.from` for edge-check steps) whose row
exists, exactly that row is highlighted; a step naming no node leaves no
row highlighted. -/
theorem updateTable_at_most_one_highlight (step : Step) (algo : Algo)
    (sn : Option Nat) (rows : List TableRow) :
    countHighlighted (updateTable step algo sn rows) ≤ 1 ∧
      (highlightTarget step = none →
        countHighlighted (updateTable step algo sn rows) = 0) ∧
      (∀ nid, highlightTarget step = some nid → (∃ r ∈ rows, r.node = nid) →
        countHighlighted (updateTable step algo sn rows) = 1) ∧
      (∀ r ∈ updateTable step algo sn rows, r.highlighted = true →
        highlightTarget step = some r.node) := by
  have hprof := updateTable_profile step algo sn rows
  have hcount := countHighlighted_congr_profile hprof
  have hallf := clearHighlights_all_false rows
  rcases hht : highlightTarget step with _ | id
  · have hphase : highlightPhase step rows = clearHighlights rows := by
      unfold highlightPhase
      rw [hht]
    have h0 : countHighlighted (updateTable step algo sn rows) = 0 := by
      rw [hcount, hphase]
      exact count0_iff.mpr hallf
    refine ⟨by omega, fun _ => h0, ?_, ?_⟩
    · intro nid hid
      cases hid
    · intro r hr hh
      have := count0_iff.mp h0 r hr
      rw [this] at hh
      cases hh
  · have hphase : highlightPhase step rows =
        onRowById (clearHighlights rows) id fun r => { r with highlighted := true } := by
      unfold highlightPhase
      rw [hht]
    obtain ⟨hcnt, hprops⟩ := onRow_highlight (clearHighlights rows) id hallf
    have hc2 : countHighlighted (updateTable step algo sn rows) =
        if ((clearHighlights rows).any fun r => r.node == id) then 1 else 0 := by
      rw [hcount, hphase, hcnt]
    refine ⟨?_, ?_, ?_, ?_⟩
    · rw [hc2]
      split <;> omega
    · intro h
      cases h
    · intro nid hid hex
      injection hid with hid
      subst hid
      rw [hc2, any_node_clearHighlights]
      obtain ⟨r, hr, hrn⟩ := hex
      have hany : (rows.any fun r => r.node == id) = true :=
        List.any_eq_true.mpr ⟨r, hr, by simp [hrn]⟩
      rw [hany]
      rfl
    · intro r hr hh
      have htrans := highlight_nodes_transfer (hphase ▸ hprof) hprops
      rw [htrans r hr hh]

/-- C10 witness for the amended statement: a `visit` step on node 2, on a
table where row 1 was previously highlighted, ends with exactly one
highlighted row. -/
theorem updateTable_at_most_one_highlight_witness :
    countHighlighted (updateTable { type := StepType.visit, node := some 2 }
      Algo.dijkstra (some 1)
      [{ node := 1, cells := ["-", "-"], highlighted := true },
       { node := 2, cells := ["-", "-"], highlighted := false }]) = 1 := by
  have h := updateTable_at_most_one_highlight { type := StepType.visit, node := some 2 }
    Algo.dijkstra (some 1)
    [{ node := 1, cells := ["-", "-"], highlighted := true },
     { node := 2, cells := ["-", "-"], highlighted := false }]
  exact h.2.2.1 2 (by decide)
    ⟨{ node := 2, cells := ["-", "-"], highlighted := false }, by decide, rfl⟩

/-- C8: replaying a fixed Step sequence yields the same final visible state
— node and edge visuals, Live Distance Table, Results History, results
panel, alerts and log — for every two positions of the speed slider: the
speed parameter flows only into the slept-time component of the replay. -/
theorem replay_speed_independent (E : List Edge) (sn : Option Nat) (algo : Algo)
    (steps : List Step) (st : AnimState) (v₁ v₂ : Nat) :
    (animateSteps E sn algo (getSpeed v₁) (st, 0) steps).1 =
      (animateSteps E sn algo (getSpeed v₂) (st, 0) steps).1 :=
  animateSteps_fst E sn algo (getSpeed v₁) (getSpeed v₂) steps (st, 0) (st, 0) rfl

end SSAP
